import Mathlib

/-! LineSQLC: upload sessions, metadata rows and object keys.

A shallow embedding of `src/main.go` and `src/db/query.sql.go`.

* Go strings are lists of characters (`Str`); message texts arrive JSON-decoded, hence are
  valid Unicode, and on such strings the byte-wise functions used by the program
  (`strings.HasPrefix`, `strings.HasSuffix`, `filepath.Base`, ...) agree with their
  character-wise readings.
* The process state is a `World`: the table `line_01`, the bucket, the `userFile` map and
  the sequence of outbound calls made so far.
* Every outbound call may fail; `Env` says, for the handling of one event, which kinds of
  call fail. Handling one event never issues the same kind of call twice, so this covers
  every failure pattern.
-/

namespace LineSQLC

/-! ## Strings (Go standard library functions used by the program) -/

/-- A Go string, as its sequence of characters. -/
abbrev Str := List Char

/-- A Go byte slice; every element is below 256. -/
abbrev Bytes := List Nat

/-- Go `unicode.IsSpace`: the Latin-1 spaces and the characters of category Z / property
White_Space. -/
def isSpace (c : Char) : Bool :=
  let n := c.toNat
  (9 ≤ n && n ≤ 13) || n == 0x20 || n == 0x85 || n == 0xA0 || n == 0x1680 ||
  (0x2000 ≤ n && n ≤ 0x200A) || n == 0x2028 || n == 0x2029 || n == 0x202F ||
  n == 0x205F || n == 0x3000

/-- Loop of `strings.Fields`: `cur` is the field being read, reversed. -/
def fieldsLoop : Str → Str → List Str
  | cur, [] => if cur.isEmpty then [] else [cur.reverse]
  | cur, c :: cs =>
    if isSpace c then
      if cur.isEmpty then fieldsLoop [] cs else cur.reverse :: fieldsLoop [] cs
    else fieldsLoop (c :: cur) cs

/-- Go `strings.Fields`: the maximal runs of non-space characters. -/
def Fields (s : Str) : List Str := fieldsLoop [] s

/-- Go `strings.TrimSpace`. -/
def TrimSpace (s : Str) : Str :=
  ((s.dropWhile isSpace).reverse.dropWhile isSpace).reverse

/-- Go `strings.HasPrefix s pre`. -/
def HasPrefix (s pre : Str) : Bool := pre.isPrefixOf s

/-- Go `strings.HasSuffix s suf`. -/
def HasSuffix (s suf : Str) : Bool := suf.reverse.isPrefixOf s.reverse

/-- Go `filepath.Base` with `/` as the separator: trailing slashes are stripped, then
the last element is taken; the empty path gives `.`, a path of slashes gives `/`. -/
def Base (path : Str) : Str :=
  if path.isEmpty then ".".toList
  else
    let stripped := path.reverse.dropWhile (fun c => c == '/')
    let last := (stripped.takeWhile (fun c => c != '/')).reverse
    if last.isEmpty then "/".toList else last

/-- Loop of `filepath.Ext`, from the last character backwards; `acc` holds the characters
already passed. -/
def extLoop : Str → Str → Str
  | [], _ => []
  | c :: rest, acc =>
    if c == '/' then []
    else if c == '.' then '.' :: acc
    else extLoop rest (c :: acc)

/-- Go `filepath.Ext`: the suffix starting at the last dot of the last path element. -/
def Ext (path : Str) : Str := extLoop path.reverse []

/-- Go `[]byte(string)` for one character (UTF-8). -/
def utf8EncodeRune (c : Char) : Bytes :=
  let n := c.toNat
  if n < 0x80 then [n]
  else if n < 0x800 then [0xC0 + n / 64, 0x80 + n % 64]
  else if n < 0x10000 then [0xE0 + n / 4096, 0x80 + (n / 64) % 64, 0x80 + n % 64]
  else [0xF0 + n / 262144, 0x80 + (n / 4096) % 64, 0x80 + (n / 64) % 64, 0x80 + n % 64]

/-- Go `[]byte(string)`. -/
def toBytes (s : Str) : Bytes := s.flatMap utf8EncodeRune

/-- The PNG signature. -/
def pngSignature : Bytes := [0x89, 0x50, 0x4E, 0x47, 0x0D, 0x0A, 0x1A, 0x0A]

/-- The JPEG signature. -/
def jpegSignature : Bytes := [0xFF, 0xD8, 0xFF]

/-- Go `http.DetectContentType`, as far as its callers tell results apart: data starting
with the PNG signature is `image/png`, data starting with the JPEG signature is
`image/jpeg` (no earlier entry of the sniffing table matches such data); every other
result is represented by `application/octet-stream`. -/
def DetectContentType (data : Bytes) : Str :=
  if pngSignature.isPrefixOf data then "image/png".toList
  else if jpegSignature.isPrefixOf data then "image/jpeg".toList
  else "application/octet-stream".toList

/-- Go `fmt.Sprintf("https://%s.r2.dev/%s", host, key)`. -/
def r2URL (host key : Str) : Str :=
  "https://".toList ++ host ++ ".r2.dev/".toList ++ key

/-! ## Data model -/

/-- Go `sql.NullString`. -/
structure NullString where
  Text : Str
  Valid : Bool
  deriving DecidableEq, Repr

/-- What the driver stores for a `sql.NullString` parameter. -/
def NullString.value (n : NullString) : Option Str :=
  if n.Valid then some n.Text else none

/-- What `Scan` puts into a `sql.NullString` for a column value. -/
def NullString.scan : Option Str → NullString
  | none => ⟨[], false⟩
  | some t => ⟨t, true⟩

/-- A row of table `line_01`. -/
structure FileRecord where
  user_id : Str
  file_name : Str
  file_content : Option Str
  created_at : Nat
  theme : Option Str
  deriving DecidableEq, Repr

/-- An object of the bucket. -/
structure Object where
  Key : Str
  Body : Bytes
  deriving DecidableEq, Repr

/-- A message sent back through the reply API. -/
inductive Reply where
  | text (t : Str)
  | image (originalContentURL previewImageURL : Str)
  deriving DecidableEq, Repr

/-- The errors the program tells apart (it only tests them against nil, and logs them). -/
inductive Error where
  | upstream
  | ErrNoRows
  | uniqueViolation
  | listingR2
  | notFoundInR2
  | uploadToR2
  | deleteFromR2
  | deleteFromDB
  | initR2
  deriving DecidableEq, Repr

/-- An outbound call: a query on `line_01`, a request to the bucket, a download, a reply. -/
inductive Call where
  | InsertFileMetadata (row : FileRecord)
  | GetFileURL (fileName : Str)
  | UpdateFileURL (fileContent : NullString) (fileName : Str)
  | RenameFile (newName oldName : Str)
  | DeleteFile (fileName : Str)
  | ListAllCategories
  | ListFilesInCategory (theme : NullString)
  | PutObject (key : Str) (body : Bytes) (contentType : Str)
  | ListObjectsV2
  | DeleteObject (key : Str)
  | GetMessageContent (messageID : Str)
  | HttpGet (url : Str)
  | ReplyMessage (replyToken : Str) (message : Reply)
  deriving DecidableEq, Repr

/-- The state of the process and of its two stores. -/
structure World where
  db : List FileRecord
  objects : List Object
  userFile : List (Str × Str)
  trace : List Call
  deriving DecidableEq, Repr

/-- The surroundings of one handler run: configuration, clock, and the outcome of each
kind of outbound call and of `initR2`. The schema of `line_01` is not part of the sources,
so whether `file_name` carries a uniqueness constraint is a parameter. -/
structure Env where
  bucket : Str
  uniqueFileName : Bool
  now : Nat
  failInsert : Bool
  failGet : Bool
  failUpdate : Bool
  failRename : Bool
  failDelete : Bool
  failListCategories : Bool
  failListFiles : Bool
  failPut : Bool
  failList : Bool
  failDeleteObject : Bool
  failInitR2 : Bool
  content : Str → Option Bytes
  failRead : Bool
  fetch : Str → Option Str

/-- A message of a webhook event. -/
inductive Message where
  | TextMessage (Text : Str)
  | ImageMessage (ID : Str)
  | FileMessage (ID : Str) (FileName : Str)
  | other
  deriving DecidableEq, Repr

/-- The type of a webhook event. -/
inductive EventType where
  | message
  | other
  deriving DecidableEq, Repr

/-- A webhook event. -/
structure Event where
  type : EventType
  ReplyToken : Str
  UserID : Str
  Message : Message
  deriving DecidableEq, Repr

/-- Records an outbound call. -/
def World.log (s : World) (c : Call) : World :=
  { s with trace := s.trace ++ [c] }

/-- Go `bot.ReplyMessage(token, message).Do()`; its error is ignored everywhere. -/
def World.reply (s : World) (replyToken : Str) (m : Reply) : World :=
  s.log (Call.ReplyMessage replyToken m)

/-! ## The `userFile` map -/

/-- Go `userFile[userID]` (value and presence). -/
def mapGet (m : List (Str × Str)) (k : Str) : Option Str :=
  match m with
  | [] => none
  | (k1, v) :: rest => if k1 = k then some v else mapGet rest k

/-- Go `delete(userFile, userID)`. -/
def mapDelete (m : List (Str × Str)) (k : Str) : List (Str × Str) :=
  m.filter (fun e => e.1 != k)

/-- Go `userFile[userID] = filename`. -/
def mapSet (m : List (Str × Str)) (k v : Str) : List (Str × Str) :=
  (k, v) :: mapDelete m k

/-! ## Package `db`: the queries on `line_01` -/

/-- `INSERT INTO line_01 (...) VALUES (...)`. -/
def Queries.InsertFileMetadata (env : Env) (s : World) (arg : FileRecord) :
    Option Error × World :=
  let s := s.log (Call.InsertFileMetadata arg)
  if env.failInsert then (some Error.upstream, s)
  else if env.uniqueFileName && s.db.any (fun r => r.file_name == arg.file_name) then
    (some Error.uniqueViolation, s)
  else (none, { s with db := s.db ++ [arg] })

/-- `SELECT file_content FROM line_01 WHERE file_name = $1`, first row scanned. -/
def Queries.GetFileURL (env : Env) (s : World) (fileName : Str) :
    Except Error NullString × World :=
  let s := s.log (Call.GetFileURL fileName)
  if env.failGet then (Except.error Error.upstream, s)
  else
    match s.db.find? (fun r => r.file_name == fileName) with
    | none => (Except.error Error.ErrNoRows, s)
    | some r => (Except.ok (NullString.scan r.file_content), s)

/-- `UPDATE line_01 SET file_content = $1 WHERE file_name = $2`. -/
def Queries.UpdateFileURL (env : Env) (s : World) (fileContent : NullString)
    (fileName : Str) : Option Error × World :=
  let s := s.log (Call.UpdateFileURL fileContent fileName)
  if env.failUpdate then (some Error.upstream, s)
  else
    (none, { s with db := s.db.map (fun r =>
      if r.file_name == fileName then { r with file_content := fileContent.value } else r) })

/-- `UPDATE line_01 SET file_name = $1 WHERE file_name = $2`. Under a uniqueness
constraint the statement fails when a row is renamed onto the name of another row. -/
def Queries.RenameFile (env : Env) (s : World) (newName oldName : Str) :
    Option Error × World :=
  let s := s.log (Call.RenameFile newName oldName)
  if env.failRename then (some Error.upstream, s)
  else if env.uniqueFileName && newName != oldName &&
      s.db.any (fun r => r.file_name == oldName) &&
      s.db.any (fun r => r.file_name == newName) then
    (some Error.uniqueViolation, s)
  else
    (none, { s with db := s.db.map (fun r =>
      if r.file_name == oldName then { r with file_name := newName } else r) })

/-- `DELETE FROM line_01 WHERE file_name = $1`. -/
def Queries.DeleteFile (env : Env) (s : World) (fileName : Str) : Option Error × World :=
  let s := s.log (Call.DeleteFile fileName)
  if env.failDelete then (some Error.upstream, s)
  else (none, { s with db := s.db.filter (fun r => r.file_name != fileName) })

/-- `SELECT DISTINCT theme FROM line_01`. -/
def Queries.ListAllCategories (env : Env) (s : World) :
    Except Error (List NullString) × World :=
  let s := s.log Call.ListAllCategories
  if env.failListCategories then (Except.error Error.upstream, s)
  else (Except.ok ((s.db.map (fun r => r.theme)).eraseDups.map NullString.scan), s)

/-- `SELECT file_name FROM line_01 WHERE theme = $1`; a NULL theme equals nothing. -/
def Queries.ListFilesInCategory (env : Env) (s : World) (theme : NullString) :
    Except Error (List Str) × World :=
  let s := s.log (Call.ListFilesInCategory theme)
  if env.failListFiles then (Except.error Error.upstream, s)
  else
    (Except.ok ((s.db.filter (fun r => theme.Valid && r.theme == some theme.Text)).map
      (fun r => r.file_name)), s)

/-! ## The bucket -/

/-- Lexicographic order of keys, the order in which the bucket lists them. -/
def keyLt : Str → Str → Bool
  | _, [] => false
  | [], _ :: _ => true
  | a :: as, b :: bs => a.toNat < b.toNat || (a == b && keyLt as bs)

/-- The bucket after a put: the object of that key is replaced, or the new object takes
its place in key order. -/
def putObject (key : Str) (body : Bytes) : List Object → List Object
  | [] => [⟨key, body⟩]
  | o :: rest =>
    if o.Key == key then ⟨key, body⟩ :: rest
    else if keyLt key o.Key then ⟨key, body⟩ :: o :: rest
    else o :: putObject key body rest

/-- The body stored under a key. -/
def getObject (objects : List Object) (key : Str) : Option Bytes :=
  (objects.find? (fun o => o.Key == key)).map (fun o => o.Body)

/-- The keys one `ListObjectsV2` request returns: the first page, at most 1000 keys. -/
def listedKeys (objects : List Object) : List Str :=
  (objects.map (fun o => o.Key)).take 1000

/-- S3 `PutObject`. -/
def S3.PutObject (env : Env) (s : World) (key : Str) (body : Bytes) (contentType : Str) :
    Option Error × World :=
  let s := s.log (Call.PutObject key body contentType)
  if env.failPut then (some Error.upstream, s)
  else (none, { s with objects := putObject key body s.objects })

/-- S3 `ListObjectsV2` on the bucket. -/
def S3.ListObjectsV2 (env : Env) (s : World) : Except Error (List Str) × World :=
  let s := s.log Call.ListObjectsV2
  if env.failList then (Except.error Error.upstream, s)
  else (Except.ok (listedKeys s.objects), s)

/-- S3 `DeleteObject`; deleting an absent key succeeds. -/
def S3.DeleteObject (env : Env) (s : World) (key : Str) : Option Error × World :=
  let s := s.log (Call.DeleteObject key)
  if env.failDeleteObject then (some Error.upstream, s)
  else (none, { s with objects := s.objects.filter (fun o => o.Key != key) })

/-! ## `main.go` -/

/-- The hard-coded public bucket id of `uploadToR2`. -/
def bucketID : Str := "pub-5100b97c44f44bd0b69047096448e186".toList

/-- Go `insertFileMetadata`. The timestamp string is produced by `Format` with the layout
it is parsed with, so the parse does not fail; the clock reading is carried as a number. -/
def insertFileMetadata (env : Env) (s : World) (userID filename theme : Str)
    (timestamp : Nat) : Option Error × World :=
  let params : FileRecord :=
    { user_id := userID
      file_name := filename
      file_content := (NullString.mk [] false).value
      created_at := timestamp
      theme := (NullString.mk theme true).value }
  Queries.InsertFileMetadata env s params

/-- Go `updateFileURL`. -/
def updateFileURL (env : Env) (s : World) (filename url : Str) : Option Error × World :=
  Queries.UpdateFileURL env s (NullString.mk url true) filename

/-- Go `uploadToR2`. -/
def uploadToR2 (env : Env) (s : World) (filename : Str) (data : Bytes) :
    Except Error Str × World :=
  let contentType := DetectContentType data
  match S3.PutObject env s filename data contentType with
  | (some _, s1) => (Except.error Error.uploadToR2, s1)
  | (none, s1) => (Except.ok (r2URL bucketID filename), s1)

/-- Go `fetchTextFromURL`: any failure of the download is an error. -/
def fetchTextFromURL (env : Env) (s : World) (fileURL : Str) : Except Error Str × World :=
  let s := s.log (Call.HttpGet fileURL)
  match env.fetch fileURL with
  | none => (Except.error Error.upstream, s)
  | some body => (Except.ok body, s)

/-- The scan of `getFileURL` over the listed keys: the first key that has `filename` as a
prefix, or the empty string. -/
def correctFile (keys : List Str) (filename : Str) : Str :=
  match keys.find? (fun key => HasPrefix key filename) with
  | some key => key
  | none => []

/-- The part of `getFileURL` after the metadata lookup gave no valid URL. -/
def getFileURLFromR2 (env : Env) (s : World) (filename : Str) : Except Error Str × World :=
  match S3.ListObjectsV2 env s with
  | (Except.error _, s1) => (Except.error Error.listingR2, s1)
  | (Except.ok keys, s1) =>
    let found := correctFile keys filename
    if found.isEmpty then (Except.error Error.notFoundInR2, s1)
    else
      let fileURL := r2URL env.bucket found
      let s2 := (updateFileURL env s1 filename fileURL).2
      (Except.ok fileURL, s2)

/-- Go `getFileURL`. -/
def getFileURL (env : Env) (s : World) (filename : Str) : Except Error Str × World :=
  match Queries.GetFileURL env s filename with
  | (Except.ok fileContent, s1) =>
    if fileContent.Valid then (Except.ok fileContent.Text, s1)
    else getFileURLFromR2 env s1 filename
  | (Except.error _, s1) => getFileURLFromR2 env s1 filename

/-- Go `listFilesFromDB`. -/
def listFilesFromDB (env : Env) (s : World) (category : Str) :
    Except Error (List Str) × World :=
  if category.isEmpty then
    match Queries.ListAllCategories env s with
    | (Except.error e, s1) => (Except.error e, s1)
    | (Except.ok categories, s1) =>
      (Except.ok ((categories.filter (fun cat => cat.Valid)).map (fun cat => cat.Text)), s1)
  else
    Queries.ListFilesInCategory env s (NullString.mk category true)

/-- Go `renameFileInDB`. -/
def renameFileInDB (env : Env) (s : World) (oldFilename newFilename : Str) :
    Option Error × World :=
  Queries.RenameFile env s newFilename oldFilename

/-- Go `initR2`: it fails when a variable of the R2 configuration is missing or the
configuration cannot be loaded, and otherwise yields the client for the named bucket. -/
def initR2 (env : Env) : Except Error Str :=
  if env.failInitR2 then Except.error Error.initR2 else Except.ok env.bucket

/-- Go `deleteFile`: it first builds a client with `initR2` and returns when that fails;
then it deletes the object, then the row. -/
def deleteFile (env : Env) (s : World) (fileURL filename : Str) : Option Error × World :=
  match initR2 env with
  | Except.error _ => (some Error.initR2, s)
  | Except.ok _ =>
    let fileKey := Base fileURL
    match S3.DeleteObject env s fileKey with
    | (some _, s1) => (some Error.deleteFromR2, s1)
    | (none, s1) =>
      match Queries.DeleteFile env s1 filename with
      | (some _, s2) => (some Error.deleteFromDB, s2)
      | (none, s2) => (none, s2)

/-- Go `handleFileMessage`. -/
def handleFileMessage (env : Env) (s : World) (event : Event) (message : Message) : World :=
  let userID := event.UserID
  match mapGet s.userFile userID with
  | none =>
    s.reply event.ReplyToken (Reply.text "Please use 'upload category filename' first.".toList)
  | some filename =>
    let fetched : Except Reply (Bytes × Str) × World :=
      match message with
      | Message.FileMessage id fileName =>
        let s1 := s.log (Call.GetMessageContent id)
        match env.content id with
        | none => (Except.error (Reply.text "Error retrieving file.".toList), s1)
        | some fileData =>
          if env.failRead then (Except.error (Reply.text "Error reading file.".toList), s1)
          else
            let contentType := DetectContentType fileData
            let ext :=
              if contentType = "image/png".toList then ".png".toList
              else if contentType = "image/jpeg".toList then ".jpeg".toList
              else Ext fileName
            (Except.ok (fileData, ext), s1)
      | Message.ImageMessage id =>
        let s1 := s.log (Call.GetMessageContent id)
        match env.content id with
        | none => (Except.error (Reply.text "Error retrieving image.".toList), s1)
        | some fileData =>
          if env.failRead then (Except.error (Reply.text "Error reading image.".toList), s1)
          else (Except.ok (fileData, ".jpeg".toList), s1)
      | _ =>
        (Except.error
          (Reply.text "Unsupported file type. Only images and files are allowed.".toList), s)
    match fetched with
    | (Except.error r, s1) => s1.reply event.ReplyToken r
    | (Except.ok (fileData, ext), s1) =>
      let fullFilename := filename ++ ext
      match uploadToR2 env s1 fullFilename fileData with
      | (Except.error _, s2) =>
        s2.reply event.ReplyToken (Reply.text "Error uploading file.".toList)
      | (Except.ok fileURL, s2) =>
        let s3 := (updateFileURL env s2 filename fileURL).2
        let s4 := { s3 with userFile := mapDelete s3.userFile userID }
        s4.reply event.ReplyToken (Reply.text "Upload successful!".toList)

/-- Case `"upload"` of `handleTextMessage`. -/
def caseUpload (env : Env) (s : World) (event : Event) (command : List Str) : World :=
  if command.length < 2 then
    s.reply event.ReplyToken (Reply.text "Usage: upload [category] filename".toList)
  else
    let category := if command.length = 2 then "default".toList else command.getD 1 []
    let filename := if command.length = 2 then command.getD 1 [] else command.getD 2 []
    if filename.isEmpty then
      s.reply event.ReplyToken (Reply.text "Error: filename cannot be empty".toList)
    else
      match insertFileMetadata env s event.UserID filename category env.now with
      | (some _, s1) =>
        s1.reply event.ReplyToken (Reply.text "Error saving file metadata.".toList)
      | (none, s1) =>
        let s2 := { s1 with userFile := mapSet s1.userFile event.UserID filename }
        s2.reply event.ReplyToken (Reply.text "Send file:".toList)

/-- Case `"open"` of `handleTextMessage`. -/
def caseOpen (env : Env) (s : World) (event : Event) (command : List Str) : World :=
  if command.length < 2 then
    s.reply event.ReplyToken (Reply.text "Usage: open filename".toList)
  else
    let filesad := command.getD 1 []
    match getFileURL env s filesad with
    | (Except.error _, s1) =>
      s1.reply event.ReplyToken (Reply.text "Error: File not found in R2.".toList)
    | (Except.ok fileURL, s1) =>
      let filename := TrimSpace (Base fileURL)
      if filename.isEmpty then
        s1.reply event.ReplyToken (Reply.text "Error: Could not determine file name.".toList)
      else if HasSuffix filename ".txt".toList then
        match fetchTextFromURL env s1 fileURL with
        | (Except.error _, s2) =>
          s2.reply event.ReplyToken (Reply.text "Error reading file content.".toList)
        | (Except.ok content, s2) => s2.reply event.ReplyToken (Reply.text content)
      else if HasSuffix filename ".jpeg".toList || HasSuffix filename ".jpg".toList ||
          HasSuffix filename ".png".toList then
        s1.reply event.ReplyToken (Reply.image fileURL fileURL)
      else
        s1.reply event.ReplyToken (Reply.text "Unsupported file type.".toList)

/-- Go `strings.Join(files, "\n")`. -/
def joinLines : List Str → Str
  | [] => []
  | [a] => a
  | a :: b :: rest => a ++ '\n' :: joinLines (b :: rest)

/-- Case `"list"` of `handleTextMessage`. -/
def caseList (env : Env) (s : World) (event : Event) (command : List Str) : World :=
  let category := if command.length < 2 then [] else command.getD 1 []
  match listFilesFromDB env s category with
  | (Except.error _, s1) => s1
  | (Except.ok files, s1) =>
    if files.length = 0 then
      s1.reply event.ReplyToken (Reply.text "No files found.".toList)
    else
      s1.reply event.ReplyToken (Reply.text ("Files:\n".toList ++ joinLines files))

/-- Case `"rename"` of `handleTextMessage`. -/
def caseRename (env : Env) (s : World) (event : Event) (command : List Str) : World :=
  if command.length < 3 then
    s.reply event.ReplyToken
      (Reply.text "Usage: rename <old_filename> <new_filename>".toList)
  else
    let oldFilename := command.getD 1 []
    let newFilename := command.getD 2 []
    match renameFileInDB env s oldFilename newFilename with
    | (some _, s1) => s1.reply event.ReplyToken (Reply.text "Error renaming file.".toList)
    | (none, s1) => s1.reply event.ReplyToken (Reply.text "File renamed successfully!".toList)

/-- Case `"delete"` of `handleTextMessage`: a failed lookup is only printed and the
deletion goes on with the empty URL. -/
def caseDelete (env : Env) (s : World) (event : Event) (command : List Str) : World :=
  if command.length < 2 then
    s.reply event.ReplyToken (Reply.text "Usage: delete <filename>".toList)
  else
    let filename := command.getD 1 []
    let looked := getFileURL env s filename
    let fileURL := match looked.1 with
      | Except.ok u => u
      | Except.error _ => []
    match deleteFile env looked.2 fileURL filename with
    | (some _, s2) => s2.reply event.ReplyToken (Reply.text "Error deleting file.".toList)
    | (none, s2) => s2.reply event.ReplyToken (Reply.text "File deleted successfully!".toList)

/-- The `default` case of `handleTextMessage`: with a pending filename the text is the
file content. -/
def caseDefault (env : Env) (s : World) (event : Event) (text : Str)
    (pending : Option Str) : World :=
  match pending with
  | some filename =>
    let fileData := toBytes text
    let txtFilename := filename ++ ".txt".toList
    match uploadToR2 env s txtFilename fileData with
    | (Except.error _, s1) => s1
    | (Except.ok fileURL, s1) =>
      let s2 := (updateFileURL env s1 filename fileURL).2
      let s3 := { s2 with userFile := mapDelete s2.userFile event.UserID }
      s3.reply event.ReplyToken (Reply.text "Upload successful!".toList)
  | none =>
    s.reply event.ReplyToken (Reply.text "USAGE:\nupload,open,list,rename".toList)

/-- Go `handleTextMessage`. -/
def handleTextMessage (env : Env) (s : World) (event : Event) (message : Message) : World :=
  let pending := mapGet s.userFile event.UserID
  match message with
  | Message.TextMessage text =>
    let command := Fields text
    match command with
    | [] => s
    | first :: _ =>
      if first = "upload".toList then caseUpload env s event command
      else if first = "open".toList then caseOpen env s event command
      else if first = "list".toList then caseList env s event command
      else if first = "rename".toList then caseRename env s event command
      else if first = "delete".toList then caseDelete env s event command
      else caseDefault env s event text pending
  | Message.ImageMessage _ | Message.FileMessage _ _ =>
    match pending with
    | some _ => handleFileMessage env s event message
    | none =>
      s.reply event.ReplyToken
        (Reply.text "Please use 'upload -category(optional) -filename' first.".toList)
  | Message.other =>
    match pending with
    | some _ =>
      s.reply event.ReplyToken
        (Reply.text "Unsupported message type. Please send text, image, or file.".toList)
    | none =>
      s.reply event.ReplyToken
        (Reply.text "Please use 'upload -category(optional) -filename' first.".toList)

/-- The body of the loop of `callbackHandler`, for one event. -/
def handleEvent (env : Env) (s : World) (event : Event) : World :=
  match event.type with
  | EventType.other => s
  | EventType.message =>
    match event.Message with
    | Message.TextMessage _ => handleTextMessage env s event event.Message
    | Message.ImageMessage _ | Message.FileMessage _ _ =>
      match mapGet s.userFile event.UserID with
      | some _ => handleFileMessage env s event event.Message
      | none =>
        s.reply event.ReplyToken (Reply.text
          "Please use 'upload -category(optional) -filename' first before sending a file.".toList)
    | Message.other =>
      s.reply event.ReplyToken
        (Reply.text "Use 'upload' to upload\nUse 'open' to open files".toList)

/-- The outcome of `bot.ParseRequest`. -/
inductive ParseResult where
  | ErrInvalidSignature
  | otherError
  | events (es : List Event)

/-- Go `callbackHandler`: the HTTP status it writes and the state after all events. -/
def callbackHandler (env : Env) (s : World) (r : ParseResult) : Nat × World :=
  match r with
  | ParseResult.ErrInvalidSignature => (400, s)
  | ParseResult.otherError => (500, s)
  | ParseResult.events es => (200, es.foldl (handleEvent env) s)

/-- The row `insertFileMetadata` builds. -/
def newRow (userID filename theme : Str) (timestamp : Nat) : FileRecord :=
  ⟨userID, filename, none, timestamp, some theme⟩

/-! ## Sample inputs -/

/-- The first bytes of a PNG file: the signature and the head of the IHDR chunk. -/
def pngBytes : Bytes := pngSignature ++ [0x00, 0x00, 0x00, 0x0D, 0x49, 0x48, 0x44, 0x52]

/-- An environment in which every outbound call succeeds; the bucket is named `files`, every
message content is `pngBytes` and every download yields `hello`. -/
def sampleEnv : Env :=
  { bucket := "files".toList
    uniqueFileName := true
    now := 1700000000
    failInsert := false
    failGet := false
    failUpdate := false
    failRename := false
    failDelete := false
    failListCategories := false
    failListFiles := false
    failPut := false
    failList := false
    failDeleteObject := false
    failInitR2 := false
    content := fun _ => some pngBytes
    failRead := false
    fetch := fun _ => some "hello".toList }

/-- The state with an empty table, an empty bucket and no pending upload. -/
def emptyWorld : World := ⟨[], [], [], []⟩

/-- A message event of user `U1`. -/
def eventOf (m : Message) : Event := ⟨EventType.message, "tok".toList, "U1".toList, m⟩

/-- A text message event of user `U1`. -/
def textEvent (t : String) : Event := eventOf (Message.TextMessage t.toList)

/-- A state in which user `U1` already has the pending filename `old`. -/
def pendingWorld : World :=
  ⟨[⟨"U1".toList, "old".toList, none, 1600000000, some "default".toList⟩], [],
    [("U1".toList, "old".toList)], []⟩

/-- The state after `upload docs report` from user `U1` on the empty state. -/
def afterUploadCommand : World :=
  handleEvent sampleEnv emptyWorld (textEvent "upload docs report")

/-- The state after user `U1` then sends a file message `photo.bin` holding PNG bytes. -/
def afterPngFile : World :=
  handleEvent sampleEnv afterUploadCommand
    (eventOf (Message.FileMessage "m1".toList "photo.bin".toList))

/-- The same state with the content URL of the record unset again. -/
def afterPngFileUnset : World :=
  { afterPngFile with db := afterUploadCommand.db }

/-- A state with an object `report.png` in the bucket and no metadata row at all. -/
def orphanWorld : World :=
  ⟨[], [⟨"report.png".toList, pngBytes⟩], [], []⟩

/-- The sample environment with a failing `UPDATE` of the content URL. -/
def updateFailingEnv : Env := { sampleEnv with failUpdate := true }

/-- The sample environment with a failing object put. -/
def putFailingEnv : Env := { sampleEnv with failPut := true }

/-- The sample environment with failing downloads. -/
def offlineEnv : Env := { sampleEnv with fetch := fun _ => none }

/-- The sample environment with the text `hi` as the content of every message. -/
def textContentEnv : Env := { sampleEnv with content := fun _ => some (toBytes "hi".toList) }

/-- The state after `upload notes` and then the text `hello world` from user `U1`. -/
def afterTextUpload : World :=
  handleEvent sampleEnv (handleEvent sampleEnv emptyWorld (textEvent "upload notes"))
    (textEvent "hello world")

/-- The state after `upload notes` and then a file message whose declared name `memo.txt `
ends in a space and whose bytes are plain text. -/
def afterSpacedUpload : World :=
  handleEvent textContentEnv (handleEvent textContentEnv emptyWorld (textEvent "upload notes"))
    (eventOf (Message.FileMessage "m3".toList "memo.txt ".toList))

/-- The sample environment with failing `list` queries. -/
def listFailingEnv : Env :=
  { sampleEnv with failListCategories := true, failListFiles := true }

/-- A table with the themes `docs`, `photos` and `default`, `docs` occurring twice. -/
def threeThemesWorld : World :=
  ⟨[⟨"U1".toList, "report".toList, none, 1600000000, some "docs".toList⟩,
    ⟨"U1".toList, "beach".toList, none, 1600000001, some "photos".toList⟩,
    ⟨"U2".toList, "memo".toList, none, 1600000002, some "default".toList⟩,
    ⟨"U2".toList, "plan".toList, none, 1600000003, some "docs".toList⟩], [], [], []⟩

/-! ## Lemmas on the library functions -/

theorem fieldsLoop_ne_nil (cur s : Str) : ∀ t ∈ fieldsLoop cur s, t ≠ [] := by
  induction s generalizing cur with
  | nil =>
    intro t ht
    cases cur with
    | nil => simp [fieldsLoop] at ht
    | cons a as =>
      simp [fieldsLoop] at ht
      subst ht
      simp
  | cons c cs ih =>
    intro t ht
    unfold fieldsLoop at ht
    split at ht
    · cases cur with
      | nil => exact ih [] t (by simpa using ht)
      | cons a as =>
        simp at ht
        rcases ht with h | h
        · subst h; simp
        · exact ih [] t h
    · exact ih (c :: cur) t ht

theorem Fields_ne_nil (s : Str) : ∀ t ∈ Fields s, t ≠ [] :=
  fieldsLoop_ne_nil [] s

theorem mapGet_mapSet_self (m : List (Str × Str)) (k v : Str) :
    mapGet (mapSet m k v) k = some v := by
  simp [mapSet, mapGet]

theorem mapGet_mapDelete_of_ne (m : List (Str × Str)) (k u : Str) (h : u ≠ k) :
    mapGet (mapDelete m k) u = mapGet m u := by
  induction m with
  | nil => rfl
  | cons e rest ih =>
    obtain ⟨k1, v1⟩ := e
    by_cases hk : k1 = k
    · subst hk
      have hne : ¬ k1 = u := fun h1 => h h1.symm
      simp [mapDelete, mapGet, hne] at ih ⊢
      exact ih
    · by_cases hu : k1 = u
      · subst hu
        simp [mapDelete, mapGet, hk, List.filter_cons]
      · simp [mapDelete, mapGet, hk, hu, List.filter_cons] at ih ⊢
        exact ih

theorem mapGet_mapDelete_self (m : List (Str × Str)) (k : Str) :
    mapGet (mapDelete m k) k = none := by
  induction m with
  | nil => rfl
  | cons e rest ih =>
    obtain ⟨k1, v1⟩ := e
    by_cases hk : k1 = k
    · simp [mapDelete, hk] at ih ⊢
      exact ih
    · simp [mapDelete, mapGet, hk] at ih ⊢
      exact ih

theorem mapGet_mapSet_of_ne (m : List (Str × Str)) (k v u : Str) (h : u ≠ k) :
    mapGet (mapSet m k v) u = mapGet m u := by
  have hne : ¬ k = u := fun h1 => h h1.symm
  simp only [mapSet, mapGet, hne, if_false]
  exact mapGet_mapDelete_of_ne m k u h

theorem filter_mapSet_self (m : List (Str × Str)) (k v : Str) :
    (mapSet m k v).filter (fun e => e.1 == k) = [(k, v)] := by
  simp [mapSet, mapDelete, List.filter_filter]

/-! ## The `upload` command -/

theorem insertFileMetadata_ok (env : Env) (s : World) (u f c : Str) (t : Nat)
    (h : (insertFileMetadata env s u f c t).1 = none) :
    (insertFileMetadata env s u f c t).2 =
      { s with db := s.db ++ [newRow u f c t],
               trace := s.trace ++ [Call.InsertFileMetadata (newRow u f c t)] } := by
  unfold insertFileMetadata Queries.InsertFileMetadata at h ⊢
  simp only [World.log, NullString.value] at h ⊢
  split at h
  · simp at h
  · split at h
    · simp at h
    · rename_i h1 h2
      simp [h1, newRow]
      simp at h2
      rw [if_neg]
      rintro ⟨hu, x, hx, hxf⟩
      exact h2 hu x hx hxf

theorem insertFileMetadata_error (env : Env) (s : World) (u f c : Str) (t : Nat)
    (h : (insertFileMetadata env s u f c t).1 ≠ none) :
    (insertFileMetadata env s u f c t).2 =
      s.log (Call.InsertFileMetadata (newRow u f c t)) := by
  unfold insertFileMetadata Queries.InsertFileMetadata at h ⊢
  simp only [World.log, NullString.value] at h ⊢
  split at h
  · rename_i h1
    simp [h1, newRow]
  · split at h
    · rename_i h1 h2
      simp [h1, h2, newRow]
    · simp at h

theorem caseUpload_of_args (env : Env) (s : World) (event : Event) (command : List Str)
    (category filename : Str) (hlen : 2 ≤ command.length)
    (hc : category = if command.length = 2 then "default".toList else command.getD 1 [])
    (hf : filename = if command.length = 2 then command.getD 1 [] else command.getD 2 [])
    (hne : filename ≠ []) :
    caseUpload env s event command =
      if (insertFileMetadata env s event.UserID filename category env.now).1 = none then
        ({ (insertFileMetadata env s event.UserID filename category env.now).2 with
            userFile := mapSet s.userFile event.UserID filename }).reply event.ReplyToken
          (Reply.text "Send file:".toList)
      else
        (insertFileMetadata env s event.UserID filename category env.now).2.reply
          event.ReplyToken (Reply.text "Error saving file metadata.".toList) := by
  have hempty : filename.isEmpty = false := by
    cases filename with
    | nil => exact absurd rfl hne
    | cons a as => rfl
  have hlt : ¬ command.length < 2 := by omega
  unfold caseUpload
  rw [if_neg hlt]
  simp only [← hc, ← hf, hempty]
  cases hres : insertFileMetadata env s event.UserID filename category env.now with
  | mk r s1 =>
    cases r with
    | none =>
      have h2 := insertFileMetadata_ok env s event.UserID filename category env.now
        (by rw [hres])
      rw [hres] at h2
      simp at h2
      subst h2
      simp
    | some e => simp

theorem handleTextMessage_upload (env : Env) (s : World) (event : Event) (text : Str)
    (rest : List Str) (h : Fields text = "upload".toList :: rest) :
    handleTextMessage env s event (Message.TextMessage text) =
      caseUpload env s event ("upload".toList :: rest) := by
  simp only [handleTextMessage, h, if_true]

/-- C1: for a text command `upload filename` or `upload category filename` whose metadata
insert succeeds, `handleTextMessage` appends to the table a row for `filename` with NULL
content URL, theme `category` (`default` with one argument) and the user as owner, and
leaves the user mapped to exactly `filename` in `userFile`, whatever was pending before;
other users keep their entries. -/
theorem C1_upload_creates_record_and_session (env : Env) (s : World) (event : Event)
    (text category filename : Str)
    (hcmd : (Fields text = ["upload".toList, filename] ∧ category = "default".toList) ∨
      Fields text = ["upload".toList, category, filename])
    (hins : (insertFileMetadata env s event.UserID filename category env.now).1 = none) :
    (handleTextMessage env s event (Message.TextMessage text)).db =
        s.db ++ [⟨event.UserID, filename, none, env.now, some category⟩] ∧
      (∃ r ∈ (handleTextMessage env s event (Message.TextMessage text)).db,
        r.file_name = filename ∧ r.file_content = none ∧ r.theme = some category ∧
        r.user_id = event.UserID) ∧
      mapGet (handleTextMessage env s event (Message.TextMessage text)).userFile event.UserID
        = some filename ∧
      (handleTextMessage env s event (Message.TextMessage text)).userFile.filter
        (fun e => e.1 == event.UserID) = [(event.UserID, filename)] ∧
      ∀ u, u ≠ event.UserID →
        mapGet (handleTextMessage env s event (Message.TextMessage text)).userFile u =
          mapGet s.userFile u := by
  have hne : filename ≠ [] := by
    apply Fields_ne_nil text
    rcases hcmd with ⟨h, _⟩ | h <;> simp [h]
  have key : handleTextMessage env s event (Message.TextMessage text) =
      ({ (insertFileMetadata env s event.UserID filename category env.now).2 with
          userFile := mapSet s.userFile event.UserID filename }).reply event.ReplyToken
        (Reply.text "Send file:".toList) := by
    rcases hcmd with ⟨h, hc⟩ | h
    · rw [handleTextMessage_upload env s event text _ h,
        caseUpload_of_args env s event _ category filename (by simp) (by simp [hc])
          (by simp) hne, if_pos hins]
    · rw [handleTextMessage_upload env s event text _ h,
        caseUpload_of_args env s event _ category filename (by simp) (by simp)
          (by simp) hne, if_pos hins]
  rw [key, insertFileMetadata_ok env s _ _ _ _ hins]
  refine ⟨rfl, ⟨⟨event.UserID, filename, none, env.now, some category⟩, ?_, rfl, rfl, rfl, rfl⟩,
    ?_, ?_, ?_⟩
  · simp [World.reply, World.log, newRow]
  · exact mapGet_mapSet_self _ _ _
  · exact filter_mapSet_self _ _ _
  · intro u hu
    exact mapGet_mapSet_of_ne _ _ _ _ hu

/-- C1 at a concrete input: `upload docs report` from `U1`, who already has `old` pending. -/
theorem C1_upload_creates_record_and_session_witness :
    (handleTextMessage sampleEnv pendingWorld (textEvent "upload docs report")
        (Message.TextMessage "upload docs report".toList)).db =
      pendingWorld.db ++
        [⟨"U1".toList, "report".toList, none, 1700000000, some "docs".toList⟩] ∧
    mapGet (handleTextMessage sampleEnv pendingWorld (textEvent "upload docs report")
        (Message.TextMessage "upload docs report".toList)).userFile "U1".toList =
      some "report".toList := by
  have h := C1_upload_creates_record_and_session sampleEnv pendingWorld
    (textEvent "upload docs report") "upload docs report".toList "docs".toList
    "report".toList (Or.inr (by decide)) (by decide)
  exact ⟨h.1, h.2.2.1⟩

/-- C2 (as stated, refuted): `upload a b c` has three tokens after the command name, yet
it is accepted: a row named `b` with theme `a` is inserted, the user is mapped to `b`, and
the reply is the prompt `Send file:`, not a usage error. -/
theorem C2_upload_three_args_accepted :
    Fields "upload a b c".toList =
        ["upload".toList, "a".toList, "b".toList, "c".toList] ∧
      handleTextMessage sampleEnv emptyWorld (textEvent "upload a b c")
          (Message.TextMessage "upload a b c".toList) =
        { db := [⟨"U1".toList, "b".toList, none, 1700000000, some "a".toList⟩]
          objects := []
          userFile := [("U1".toList, "b".toList)]
          trace :=
            [Call.InsertFileMetadata
                ⟨"U1".toList, "b".toList, none, 1700000000, some "a".toList⟩,
              Call.ReplyMessage "tok".toList (Reply.text "Send file:".toList)] } := by
  decide

/-- C2 (amended): for a text whose first token is `upload`: with no further token the
handler replies with the usage text and leaves table, bucket and session map as they were;
with one further token the category is `default` and the filename is that token; with two
or more further tokens the category is the first and the filename the second, later tokens
being ignored. In the accepted cases a successful insert appends the row, maps the user to
the filename and prompts for the file; a failed insert changes neither table nor session
map and is answered with the metadata error text. -/
theorem C2_upload_arity (env : Env) (s : World) (event : Event) (text : Str)
    (rest : List Str) (h : Fields text = "upload".toList :: rest) :
    (rest = [] →
      handleTextMessage env s event (Message.TextMessage text) =
        { s with trace := s.trace ++ [Call.ReplyMessage event.ReplyToken
            (Reply.text "Usage: upload [category] filename".toList)] }) ∧
    (∀ category filename : Str,
      (rest = [filename] ∧ category = "default".toList) ∨
        (∃ more, rest = category :: filename :: more) →
      ((insertFileMetadata env s event.UserID filename category env.now).1 = none →
        handleTextMessage env s event (Message.TextMessage text) =
          { db := s.db ++ [newRow event.UserID filename category env.now]
            objects := s.objects
            userFile := mapSet s.userFile event.UserID filename
            trace := s.trace ++
              [Call.InsertFileMetadata (newRow event.UserID filename category env.now),
                Call.ReplyMessage event.ReplyToken (Reply.text "Send file:".toList)] }) ∧
      ((insertFileMetadata env s event.UserID filename category env.now).1 ≠ none →
        handleTextMessage env s event (Message.TextMessage text) =
          { s with trace := s.trace ++
              [Call.InsertFileMetadata (newRow event.UserID filename category env.now),
                Call.ReplyMessage event.ReplyToken
                  (Reply.text "Error saving file metadata.".toList)] })) := by
  rw [handleTextMessage_upload env s event text rest h]
  refine ⟨?_, ?_⟩
  · intro hr
    subst hr
    simp [caseUpload, World.reply, World.log]
  · intro category filename hcase
    have hne : filename ≠ [] := by
      apply Fields_ne_nil text
      rcases hcase with ⟨hr, _⟩ | ⟨more, hr⟩ <;> simp [h, hr]
    have hcu := caseUpload_of_args env s event ("upload".toList :: rest) category filename
      (by rcases hcase with ⟨hr, _⟩ | ⟨more, hr⟩ <;> simp [hr])
      (by
        rcases hcase with ⟨hr, hc⟩ | ⟨more, hr⟩
        · simp [hr, hc]
        · simp [hr])
      (by rcases hcase with ⟨hr, _⟩ | ⟨more, hr⟩ <;> simp [hr])
      hne
    rw [hcu]
    refine ⟨?_, ?_⟩
    · intro hins
      rw [if_pos hins, insertFileMetadata_ok env s _ _ _ _ hins]
      simp [World.reply, World.log]
    · intro hins
      rw [if_neg hins, insertFileMetadata_error env s _ _ _ _ hins]
      simp [World.reply, World.log]

/-- C2 (amended) at a concrete input: `upload report` on the empty state. -/
theorem C2_upload_arity_witness :
    handleTextMessage sampleEnv emptyWorld (textEvent "upload report")
        (Message.TextMessage "upload report".toList) =
      { db := emptyWorld.db ++ [newRow "U1".toList "report".toList "default".toList 1700000000]
        objects := []
        userFile := mapSet [] "U1".toList "report".toList
        trace := [] ++
          [Call.InsertFileMetadata
              (newRow "U1".toList "report".toList "default".toList 1700000000),
            Call.ReplyMessage "tok".toList (Reply.text "Send file:".toList)] } :=
  ((C2_upload_arity sampleEnv emptyWorld (textEvent "upload report")
      "upload report".toList ["report".toList] (by decide)).2
    "default".toList "report".toList (Or.inl ⟨rfl, rfl⟩)).1 (by decide)

/-! ## Payloads without a pending upload -/

/-- C3: when the sender of an image or file message has no entry in `userFile`,
`callbackHandler` leaves the table, the bucket and the session map exactly as they were and
its only outbound call is the reply asking to use `upload` first; `handleFileMessage`, were
it reached in that state, likewise only replies with its own prompt. -/
theorem C3_payload_without_pending_upload (env : Env) (s : World) (event : Event)
    (htype : event.type = EventType.message)
    (hmsg : (∃ id, event.Message = Message.ImageMessage id) ∨
      (∃ id name, event.Message = Message.FileMessage id name))
    (hno : mapGet s.userFile event.UserID = none) :
    callbackHandler env s (ParseResult.events [event]) =
        (200, { s with trace := s.trace ++ [Call.ReplyMessage event.ReplyToken (Reply.text
          "Please use 'upload -category(optional) -filename' first before sending a file.".toList)] }) ∧
      handleFileMessage env s event event.Message =
        { s with trace := s.trace ++ [Call.ReplyMessage event.ReplyToken
          (Reply.text "Please use 'upload category filename' first.".toList)] } := by
  refine ⟨?_, ?_⟩
  · rcases hmsg with ⟨id, hm⟩ | ⟨id, name, hm⟩ <;>
      simp only [callbackHandler, List.foldl, handleEvent, htype, hm, hno, World.reply,
        World.log]
  · simp only [handleFileMessage, hno, World.reply, World.log]

/-- C3 at a concrete input: a file message from `U1` on the empty state. -/
theorem C3_payload_without_pending_upload_witness :
    callbackHandler sampleEnv emptyWorld
        (ParseResult.events [eventOf (Message.FileMessage "m1".toList "a.png".toList)]) =
      (200, { emptyWorld with trace := [] ++ [Call.ReplyMessage "tok".toList (Reply.text
        "Please use 'upload -category(optional) -filename' first before sending a file.".toList)] }) :=
  (C3_payload_without_pending_upload sampleEnv emptyWorld
    (eventOf (Message.FileMessage "m1".toList "a.png".toList)) rfl
    (Or.inr ⟨"m1".toList, "a.png".toList, rfl⟩) rfl).1

/-! ## Resolving a filename -/

/-- C4 (the code at the failing input): after `upload docs report` and a PNG file message
the bucket `files` holds the key `report.png` and the record holds the URL `uploadToR2`
returned, built on the hard-coded public host; `getFileURL` answers that URL from the
record, but with the content URL unset its scan matches the same key `report.png` and
answers a URL built on the bucket name instead. -/
theorem C4_fast_and_fallback_urls_differ :
    afterPngFile.objects = [⟨"report.png".toList, pngBytes⟩] ∧
      afterPngFile.db =
        [⟨"U1".toList, "report".toList,
          some "https://pub-5100b97c44f44bd0b69047096448e186.r2.dev/report.png".toList,
          1700000000, some "docs".toList⟩] ∧
      (uploadToR2 sampleEnv emptyWorld "report.png".toList pngBytes).1 =
        Except.ok "https://pub-5100b97c44f44bd0b69047096448e186.r2.dev/report.png".toList ∧
      (getFileURL sampleEnv afterPngFile "report".toList).1 =
        Except.ok "https://pub-5100b97c44f44bd0b69047096448e186.r2.dev/report.png".toList ∧
      correctFile (listedKeys afterPngFileUnset.objects) "report".toList =
        "report.png".toList ∧
      (getFileURL sampleEnv afterPngFileUnset "report".toList).1 =
        Except.ok "https://files.r2.dev/report.png".toList ∧
      (getFileURL sampleEnv afterPngFile "report".toList).1 ≠
        (getFileURL sampleEnv afterPngFileUnset "report".toList).1 :=
  ⟨rfl, rfl, rfl, rfl, rfl, rfl, fun h => absurd (Except.ok.inj h) (by decide)⟩

theorem updateFileURL_snd (env : Env) (s : World) (filename url : Str) :
    (updateFileURL env s filename url).2 =
      { s with
        db := if env.failUpdate then s.db else s.db.map (fun r =>
          if r.file_name == filename then { r with file_content := some url } else r)
        trace := s.trace ++ [Call.UpdateFileURL (NullString.mk url true) filename] } := by
  unfold updateFileURL Queries.UpdateFileURL
  cases h : env.failUpdate <;> simp [World.log, NullString.value]

theorem getFileURL_of_miss (env : Env) (s : World) (filename : Str)
    (hmiss : ∀ u0, (Queries.GetFileURL env s filename).1 ≠ Except.ok (NullString.mk u0 true)) :
    getFileURL env s filename =
      getFileURLFromR2 env (s.log (Call.GetFileURL filename)) filename := by
  have h2 : (Queries.GetFileURL env s filename).2 = s.log (Call.GetFileURL filename) := by
    unfold Queries.GetFileURL
    simp only
    split
    · rfl
    · split <;> rfl
  unfold getFileURL
  cases hres : Queries.GetFileURL env s filename with
  | mk r s1 =>
    rw [hres] at h2 hmiss
    simp only at h2
    subst h2
    cases r with
    | error e => rfl
    | ok fc =>
      obtain ⟨t, v⟩ := fc
      cases v with
      | false => simp
      | true => exact absurd rfl (hmiss t)

theorem getFileURLFromR2_ok (env : Env) (s : World) (filename u : Str)
    (hok : (getFileURLFromR2 env s filename).1 = Except.ok u) :
    env.failList = false ∧ correctFile (listedKeys s.objects) filename ≠ [] ∧
      u = r2URL env.bucket (correctFile (listedKeys s.objects) filename) ∧
      (getFileURLFromR2 env s filename).2 =
        (updateFileURL env (s.log Call.ListObjectsV2) filename u).2 := by
  unfold getFileURLFromR2 S3.ListObjectsV2 at hok ⊢
  cases hl : env.failList with
  | true => simp [hl] at hok
  | false =>
    simp only [hl] at hok ⊢
    cases hc : correctFile (listedKeys (s.log Call.ListObjectsV2).objects) filename with
    | nil => simp [hc] at hok
    | cons a as =>
      simp [hc] at hok
      have hobj : (s.log Call.ListObjectsV2).objects = s.objects := rfl
      rw [hobj] at hc
      simp [hc, World.log, ← hok]

theorem find_map_setContent (db : List FileRecord) (filename : Str) (c : Option Str) :
    (db.map (fun r => if r.file_name == filename then { r with file_content := c } else r)).find?
        (fun r => r.file_name == filename) =
      (db.find? (fun r => r.file_name == filename)).map (fun r => { r with file_content := c }) := by
  induction db with
  | nil => rfl
  | cons r rest ih =>
    by_cases h : r.file_name = filename
    · simp [List.find?_cons, h, -List.find?_map]
    · have hb : (r.file_name == filename) = false := by simpa using h
      simp only [List.map_cons, List.find?_cons, hb, Bool.false_eq_true, if_false]
      exact ih

/-- C5 (as stated, refuted): (1) the record `report` has no content URL, the bucket holds
`report.png` and the back-fill update fails: `getFileURL report` succeeds through the scan,
the failure is only logged, and the second call lists the bucket again; (2) with the object
`report.png` in the bucket and no metadata row, the back-fill updates no row and the second
call lists the bucket again as well. -/
theorem C5_second_lookup_scans_again :
    (getFileURL updateFailingEnv afterPngFileUnset "report".toList).1 =
        Except.ok "https://files.r2.dev/report.png".toList ∧
      (getFileURL updateFailingEnv afterPngFileUnset "report".toList).2.db =
        afterPngFileUnset.db ∧
      (getFileURL sampleEnv (getFileURL updateFailingEnv afterPngFileUnset "report".toList).2
          "report".toList).2.trace =
        afterPngFileUnset.trace ++
          [Call.GetFileURL "report".toList, Call.ListObjectsV2,
            Call.UpdateFileURL ⟨"https://files.r2.dev/report.png".toList, true⟩ "report".toList,
            Call.GetFileURL "report".toList, Call.ListObjectsV2,
            Call.UpdateFileURL ⟨"https://files.r2.dev/report.png".toList, true⟩
              "report".toList] ∧
      (getFileURL sampleEnv orphanWorld "report".toList).1 =
        Except.ok "https://files.r2.dev/report.png".toList ∧
      (getFileURL sampleEnv orphanWorld "report".toList).2.db = [] ∧
      (getFileURL sampleEnv (getFileURL sampleEnv orphanWorld "report".toList).2
          "report".toList).2.trace =
        [Call.GetFileURL "report".toList, Call.ListObjectsV2,
          Call.UpdateFileURL ⟨"https://files.r2.dev/report.png".toList, true⟩ "report".toList,
          Call.GetFileURL "report".toList, Call.ListObjectsV2,
          Call.UpdateFileURL ⟨"https://files.r2.dev/report.png".toList, true⟩ "report".toList] :=
  ⟨rfl, rfl, rfl, rfl, rfl, rfl⟩

/-- C5 (amended): when the table has a row named `filename`, the metadata lookup gives no
valid content URL, `getFileURL filename` succeeds through the scan with URL `u` and the
back-fill update is not failing, then a second `getFileURL filename` on the resulting state
(its metadata lookup not failing) returns `u` and its only outbound call is the metadata
lookup: the bucket is not listed. -/
theorem C5_fallback_then_fast_path (env env2 : Env) (s : World) (filename u : Str)
    (hrow : ∃ r ∈ s.db, r.file_name = filename)
    (hmiss : ∀ u0, (Queries.GetFileURL env s filename).1 ≠ Except.ok (NullString.mk u0 true))
    (hok : (getFileURL env s filename).1 = Except.ok u)
    (hupd : env.failUpdate = false) (hget : env2.failGet = false) :
    getFileURL env2 (getFileURL env s filename).2 filename =
      (Except.ok u, (getFileURL env s filename).2.log (Call.GetFileURL filename)) := by
  rw [getFileURL_of_miss env s filename hmiss] at hok ⊢
  obtain ⟨_, _, _, h2⟩ := getFileURLFromR2_ok env _ filename u hok
  rw [h2, updateFileURL_snd, hupd]
  obtain ⟨r, hr, hname⟩ := hrow
  have hfind : ∃ r0, s.db.find? (fun r => r.file_name == filename) = some r0 := by
    cases hf : s.db.find? (fun r => r.file_name == filename) with
    | some r0 => exact ⟨r0, rfl⟩
    | none =>
      rw [List.find?_eq_none] at hf
      exact absurd (by simpa using hname) (hf r hr)
  obtain ⟨r0, hr0⟩ := hfind
  unfold getFileURL Queries.GetFileURL
  simp only [hget, World.log, Bool.false_eq_true, if_false]
  rw [find_map_setContent, hr0]
  simp [NullString.scan]

/-- C5 (amended) at a concrete input: the record `report` without content URL and the object `report.png`. -/
theorem C5_fallback_then_fast_path_witness :
    getFileURL sampleEnv (getFileURL sampleEnv afterPngFileUnset "report".toList).2
        "report".toList =
      (Except.ok "https://files.r2.dev/report.png".toList,
        (getFileURL sampleEnv afterPngFileUnset "report".toList).2.log
          (Call.GetFileURL "report".toList)) :=
  C5_fallback_then_fast_path sampleEnv sampleEnv afterPngFileUnset "report".toList
    "https://files.r2.dev/report.png".toList (by decide)
    (fun u0 h => by
      have h2 : Except.ok (NullString.mk [] false) = Except.ok (NullString.mk u0 true) := h
      cases h2)
    rfl rfl rfl

/-! ## Renaming -/

theorem find_map_rename (db : List FileRecord) (A B : Str)
    (h : A = B ∨ ∀ r ∈ db, r.file_name ≠ B) :
    (db.map (fun r => if r.file_name == A then { r with file_name := B } else r)).find?
        (fun r => r.file_name == B) =
      (db.find? (fun r => r.file_name == A)).map (fun r => { r with file_name := B }) := by
  induction db with
  | nil => rfl
  | cons r rest ih =>
    have hrest : A = B ∨ ∀ r ∈ rest, r.file_name ≠ B := by
      rcases h with h | h
      · exact Or.inl h
      · exact Or.inr (fun x hx => h x (List.mem_cons_of_mem _ hx))
    by_cases hA : r.file_name = A
    · have hb : (r.file_name == A) = true := by simpa using hA
      simp only [List.map_cons, List.find?_cons, hb, if_true, beq_self_eq_true,
        Option.map_some']
    · have hb : (r.file_name == A) = false := by simpa using hA
      have hB : (r.file_name == B) = false := by
        rcases h with h | h
        · subst h; exact hb
        · simpa using h r (List.mem_cons_self _ _)
      simp only [List.map_cons, List.find?_cons, hb, hB, Bool.false_eq_true, if_false]
      exact ih hrest

theorem GetFileURL_ok_iff (env : Env) (s : World) (filename : Str) (n : NullString)
    (h : (Queries.GetFileURL env s filename).1 = Except.ok n) :
    env.failGet = false ∧
      ∃ r, s.db.find? (fun r => r.file_name == filename) = some r ∧
        n = NullString.scan r.file_content := by
  unfold Queries.GetFileURL at h
  cases hg : env.failGet with
  | true => simp [hg] at h
  | false =>
    simp only [hg, World.log] at h
    cases hf : s.db.find? (fun r => r.file_name == filename) with
    | none => simp [hf] at h
    | some r =>
      simp [hf] at h
      exact ⟨rfl, r, rfl, h.symm⟩

theorem getFileURL_of_hit (env : Env) (s : World) (filename u : Str)
    (h : (Queries.GetFileURL env s filename).1 = Except.ok (NullString.mk u true)) :
    getFileURL env s filename = (Except.ok u, s.log (Call.GetFileURL filename)) := by
  obtain ⟨hg, r, hf, hn⟩ := GetFileURL_ok_iff env s filename _ h
  unfold getFileURL Queries.GetFileURL
  simp only [hg, hf, ← hn, World.log]
  simp

/-- C6 (as stated, refuted): with the object `report.png` in the bucket and no metadata row,
`getFileURL report` returns a URL, `renameFileInDB report summary` succeeds (it updates no
row), and `getFileURL summary` then fails with the not-found error. -/
theorem C6_rename_loses_scanned_url :
    (getFileURL sampleEnv orphanWorld "report".toList).1 =
        Except.ok "https://files.r2.dev/report.png".toList ∧
      (renameFileInDB sampleEnv (getFileURL sampleEnv orphanWorld "report".toList).2
        "report".toList "summary".toList).1 = none ∧
      (getFileURL sampleEnv
        (renameFileInDB sampleEnv (getFileURL sampleEnv orphanWorld "report".toList).2
          "report".toList "summary".toList).2 "summary".toList).1 =
        Except.error Error.notFoundInR2 :=
  ⟨rfl, rfl, rfl⟩

theorem getFileURLFromR2_objects (env : Env) (s : World) (filename : Str) :
    (getFileURLFromR2 env s filename).2.objects = s.objects := by
  unfold getFileURLFromR2 S3.ListObjectsV2
  cases env.failList with
  | true => rfl
  | false =>
    simp only [Bool.false_eq_true, if_false]
    split
    · rfl
    · rw [updateFileURL_snd]
      rfl

theorem GetFileURL_snd (env : Env) (s : World) (filename : Str) :
    (Queries.GetFileURL env s filename).2 = s.log (Call.GetFileURL filename) := by
  unfold Queries.GetFileURL
  simp only
  split
  · rfl
  · split <;> rfl

theorem getFileURL_objects (env : Env) (s : World) (filename : Str) :
    (getFileURL env s filename).2.objects = s.objects := by
  have h2 := GetFileURL_snd env s filename
  unfold getFileURL
  cases hres : Queries.GetFileURL env s filename with
  | mk r s1 =>
    rw [hres] at h2
    simp only at h2
    subst h2
    cases r with
    | error e => exact getFileURLFromR2_objects env _ filename
    | ok fc =>
      simp only
      split
      · rfl
      · exact getFileURLFromR2_objects env _ filename

theorem getFileURLFromR2_db (env : Env) (s : World) (filename : Str) :
    (getFileURLFromR2 env s filename).2.db = s.db ∨
      ∃ u, (getFileURLFromR2 env s filename).2.db = s.db.map (fun r =>
        if r.file_name == filename then { r with file_content := some u } else r) := by
  unfold getFileURLFromR2 S3.ListObjectsV2
  cases env.failList with
  | true => exact Or.inl rfl
  | false =>
    simp only [Bool.false_eq_true, if_false]
    split
    · exact Or.inl rfl
    · rw [updateFileURL_snd]
      cases env.failUpdate with
      | true => exact Or.inl rfl
      | false => exact Or.inr ⟨_, rfl⟩

theorem getFileURL_db (env : Env) (s : World) (filename : Str) :
    (getFileURL env s filename).2.db = s.db ∨
      ∃ u, (getFileURL env s filename).2.db = s.db.map (fun r =>
        if r.file_name == filename then { r with file_content := some u } else r) := by
  have h2 := GetFileURL_snd env s filename
  unfold getFileURL
  cases hres : Queries.GetFileURL env s filename with
  | mk r s1 =>
    rw [hres] at h2
    simp only at h2
    subst h2
    cases r with
    | error e => exact getFileURLFromR2_db env _ filename
    | ok fc =>
      simp only
      split
      · exact Or.inl rfl
      · exact getFileURLFromR2_db env _ filename

theorem getFileURL_db_names (env : Env) (s : World) (filename B : Str)
    (h : ∀ r ∈ s.db, r.file_name ≠ B) :
    ∀ r ∈ (getFileURL env s filename).2.db, r.file_name ≠ B := by
  rcases getFileURL_db env s filename with hdb | ⟨u, hdb⟩
  · rw [hdb]; exact h
  · rw [hdb]
    intro r hr
    rw [List.mem_map] at hr
    obtain ⟨r0, hr0, heq⟩ := hr
    have hname : r.file_name = r0.file_name := by
      rw [← heq]
      split <;> rfl
    rw [hname]
    exact h r0 hr0

/-- C6 (amended): when `getFileURL A` returns `u` and, after that lookup, the row of `A`
holds the content URL `u` (it held it already, or the back-fill of the lookup wrote it),
`renameFileInDB A B` then succeeds, and file names are a unique key of the table or no row
is named `B` beforehand, then `getFileURL B` (its metadata lookup not failing) returns `u`,
and the bucket is the same as before. -/
theorem C6_rename_then_resolve (env env2 env3 : Env) (s : World) (A B u : Str)
    (hA : (getFileURL env s A).1 = Except.ok u)
    (hrow : ∃ r, (getFileURL env s A).2.db.find? (fun r => r.file_name == A) = some r ∧
      r.file_content = some u)
    (hren : (renameFileInDB env2 (getFileURL env s A).2 A B).1 = none)
    (huniq : env2.uniqueFileName = true ∨ ∀ r ∈ s.db, r.file_name ≠ B)
    (hget : env3.failGet = false) :
    (getFileURL env s A).1 = Except.ok u ∧
      (getFileURL env3 (renameFileInDB env2 (getFileURL env s A).2 A B).2 B).1 =
        Except.ok u ∧
      (renameFileInDB env2 (getFileURL env s A).2 A B).2.objects = s.objects ∧
      (getFileURL env3 (renameFileInDB env2 (getFileURL env s A).2 A B).2 B).2.objects =
        s.objects := by
  refine ⟨hA, ?_⟩
  obtain ⟨r, hf, hrc⟩ := hrow
  have hobj1 := getFileURL_objects env s A
  have hnames : (∀ r ∈ s.db, r.file_name ≠ B) →
      ∀ r ∈ (getFileURL env s A).2.db, r.file_name ≠ B :=
    getFileURL_db_names env s A B
  generalize (getFileURL env s A).2 = s1 at hf hren hobj1 hnames ⊢
  have hmem : s1.db.any (fun r => r.file_name == A) = true := by
    rw [List.any_eq_true]
    exact ⟨r, List.mem_of_find?_eq_some hf,
      List.find?_some (p := fun (r : FileRecord) => r.file_name == A) hf⟩
  have hcond : A = B ∨ ∀ r ∈ s1.db, r.file_name ≠ B := by
    rcases huniq with hu | hB
    · by_cases hAB : A = B
      · exact Or.inl hAB
      · right
        intro x hx hxB
        have hanyB : s1.db.any (fun r => r.file_name == B) = true := by
          rw [List.any_eq_true]
          exact ⟨x, hx, by simpa using hxB⟩
        have hne : (B != A) = true := by
          simp only [bne_iff_ne, ne_eq]
          exact fun h => hAB h.symm
        simp [renameFileInDB, Queries.RenameFile, World.log, hu, hmem, hanyB, hne] at hren
        split at hren <;> simp at hren
    · exact Or.inr (hnames hB)
  have hdb : (renameFileInDB env2 s1 A B).2 =
      { s1 with
        db := s1.db.map (fun r => if r.file_name == A then { r with file_name := B } else r)
        trace := s1.trace ++ [Call.RenameFile B A] } := by
    simp only [renameFileInDB, Queries.RenameFile, World.log] at hren ⊢
    split at hren
    · simp at hren
    · split at hren
      · simp at hren
      · rename_i h1 h2
        simp [h1, h2]
  have hhit : (Queries.GetFileURL env3 (renameFileInDB env2 s1 A B).2 B).1 =
      Except.ok (NullString.mk u true) := by
    rw [hdb]
    unfold Queries.GetFileURL
    simp only [hget, World.log, Bool.false_eq_true, if_false]
    rw [find_map_rename s1.db A B hcond, hf]
    simp [NullString.scan, hrc]
  rw [getFileURL_of_hit env3 _ B u hhit, hdb]
  exact ⟨rfl, hobj1, hobj1⟩

/-- C6 (amended) at a concrete input: the row `report` has no content URL and the bucket
holds `report.png`; the lookup back-fills the URL, and after the rename to `summary` the
lookup of `summary` returns it. -/
theorem C6_rename_then_resolve_witness :
    (getFileURL sampleEnv (renameFileInDB sampleEnv
        (getFileURL sampleEnv afterPngFileUnset "report".toList).2
        "report".toList "summary".toList).2 "summary".toList).1 =
      Except.ok "https://files.r2.dev/report.png".toList :=
  (C6_rename_then_resolve sampleEnv sampleEnv sampleEnv afterPngFileUnset "report".toList
    "summary".toList "https://files.r2.dev/report.png".toList
    rfl ⟨_, rfl, rfl⟩ rfl (Or.inl rfl) rfl).2.1

/-! ## Deleting -/

theorem correctFile_eq_nil_iff (keys : List Str) (filename : Str) (hf : filename ≠ []) :
    correctFile keys filename = [] ↔ ∀ key ∈ keys, HasPrefix key filename = false := by
  unfold correctFile
  cases hfind : keys.find? (fun key => HasPrefix key filename) with
  | none =>
    simp only [true_iff]
    intro key hkey
    rw [List.find?_eq_none] at hfind
    simpa using hfind key hkey
  | some key =>
    have hp : HasPrefix key filename = true :=
      List.find?_some (p := fun (key : Str) => HasPrefix key filename) hfind
    have hmem := List.mem_of_find?_eq_some hfind
    constructor
    · intro hk
      simp only at hk
      subst hk
      cases filename with
      | nil => exact absurd rfl hf
      | cons a as => simp [HasPrefix, List.isPrefixOf] at hp
    · intro hall
      rw [hall key hmem] at hp
      cases hp

theorem getFileURLFromR2_notFound_iff (env : Env) (s : World) (filename : Str)
    (hl : env.failList = false) (hf : filename ≠ []) :
    (getFileURLFromR2 env s filename).1 = Except.error Error.notFoundInR2 ↔
      ∀ key ∈ listedKeys s.objects, HasPrefix key filename = false := by
  rw [← correctFile_eq_nil_iff _ _ hf]
  unfold getFileURLFromR2 S3.ListObjectsV2
  simp only [hl, World.log, Bool.false_eq_true, if_false]
  cases hc : correctFile (listedKeys s.objects) filename with
  | nil => simp
  | cons a as => simp

theorem handleTextMessage_delete (env : Env) (s : World) (event : Event) (text : Str)
    (rest : List Str) (h : Fields text = "delete".toList :: rest) :
    handleTextMessage env s event (Message.TextMessage text) =
      caseDelete env s event ("delete".toList :: rest) := by
  have h1 : ¬ "delete".toList = "upload".toList := by decide
  have h2 : ¬ "delete".toList = "open".toList := by decide
  have h3 : ¬ "delete".toList = "list".toList := by decide
  have h4 : ¬ "delete".toList = "rename".toList := by decide
  simp only [handleTextMessage, h, if_true, if_neg h1, if_neg h2, if_neg h3, if_neg h4]

theorem getObject_putObject_self (objects : List Object) (key : Str) (body : Bytes) :
    getObject (putObject key body objects) key = some body := by
  induction objects with
  | nil => simp [putObject, getObject]
  | cons o rest ih =>
    unfold putObject
    by_cases h : o.Key = key
    · simp [h, getObject]
    · have hb : (o.Key == key) = false := by simpa using h
      simp only [hb, Bool.false_eq_true, if_false]
      split
      · simp [getObject]
      · simp only [getObject, List.find?_cons, hb] at ih ⊢
        exact ih

theorem uploadToR2_ok (env : Env) (s : World) (filename : Str) (data : Bytes)
    (h : env.failPut = false) :
    uploadToR2 env s filename data =
      (Except.ok (r2URL bucketID filename),
        { s with
          objects := putObject filename data s.objects
          trace := s.trace ++ [Call.PutObject filename data (DetectContentType data)] }) := by
  simp [uploadToR2, S3.PutObject, World.log, h]

theorem uploadToR2_fail (env : Env) (s : World) (filename : Str) (data : Bytes)
    (h : env.failPut = true) :
    uploadToR2 env s filename data =
      (Except.error Error.uploadToR2,
        s.log (Call.PutObject filename data (DetectContentType data))) := by
  simp [uploadToR2, S3.PutObject, World.log, h]

/-- C8 (as stated, refuted): with `report` pending, an image message whose bytes are PNG
bytes is stored under `report.jpeg`: for image messages the bytes are not sniffed. -/
theorem C8_png_image_message_stored_as_jpeg :
    DetectContentType pngBytes = "image/png".toList ∧
      mapGet afterUploadCommand.userFile "U1".toList = some "report".toList ∧
      (handleFileMessage sampleEnv afterUploadCommand
          (eventOf (Message.ImageMessage "m1".toList))
          (Message.ImageMessage "m1".toList)).objects =
        [⟨"report.jpeg".toList, pngBytes⟩] ∧
      (handleFileMessage sampleEnv afterUploadCommand
          (eventOf (Message.ImageMessage "m1".toList))
          (Message.ImageMessage "m1".toList)).db =
        [⟨"U1".toList, "report".toList,
          some "https://pub-5100b97c44f44bd0b69047096448e186.r2.dev/report.jpeg".toList,
          1700000000, some "docs".toList⟩] := by
  decide

/-- C8 (amended): for a user with pending filename `p` whose payload content is retrieved
and whose object put does not fail: for a file message the extension is `.png` when the
bytes sniff as PNG, `.jpeg` when they sniff as JPEG, and otherwise the extension of the
declared name; for an image message it is always `.jpeg`. The bytes are stored under the
key `p` followed by that extension, the update of the rows named `p` with the URL derived
for that key is issued (when it does not fail, those rows hold that URL; its failure is
ignored), the user's session entry is removed and the reply is `Upload successful!`. -/
theorem C8_payload_with_pending_upload (env : Env) (s : World) (event : Event)
    (message : Message) (p id ext : Str) (data : Bytes)
    (hpend : mapGet s.userFile event.UserID = some p)
    (hmsg : (∃ name, message = Message.FileMessage id name ∧
        ext = if DetectContentType data = "image/png".toList then ".png".toList
          else if DetectContentType data = "image/jpeg".toList then ".jpeg".toList
          else Ext name) ∨
      (message = Message.ImageMessage id ∧ ext = ".jpeg".toList))
    (hcontent : env.content id = some data) (hread : env.failRead = false)
    (hput : env.failPut = false) :
    handleFileMessage env s event message =
        { db := if env.failUpdate then s.db else s.db.map (fun r =>
            if r.file_name == p then
              { r with file_content := some (r2URL bucketID (p ++ ext)) }
            else r)
          objects := putObject (p ++ ext) data s.objects
          userFile := mapDelete s.userFile event.UserID
          trace := s.trace ++
            [Call.GetMessageContent id,
              Call.PutObject (p ++ ext) data (DetectContentType data),
              Call.UpdateFileURL (NullString.mk (r2URL bucketID (p ++ ext)) true) p,
              Call.ReplyMessage event.ReplyToken (Reply.text "Upload successful!".toList)] } ∧
      getObject (handleFileMessage env s event message).objects (p ++ ext) = some data ∧
      mapGet (handleFileMessage env s event message).userFile event.UserID = none ∧
      (env.failUpdate = false → ∀ r ∈ (handleFileMessage env s event message).db,
        r.file_name = p → r.file_content = some (r2URL bucketID (p ++ ext))) := by
  have key : handleFileMessage env s event message =
      { db := if env.failUpdate then s.db else s.db.map (fun r =>
          if r.file_name == p then
            { r with file_content := some (r2URL bucketID (p ++ ext)) }
          else r)
        objects := putObject (p ++ ext) data s.objects
        userFile := mapDelete s.userFile event.UserID
        trace := s.trace ++
          [Call.GetMessageContent id,
            Call.PutObject (p ++ ext) data (DetectContentType data),
            Call.UpdateFileURL (NullString.mk (r2URL bucketID (p ++ ext)) true) p,
            Call.ReplyMessage event.ReplyToken (Reply.text "Upload successful!".toList)] } := by
    rcases hmsg with ⟨name, hm, hext⟩ | ⟨hm, hext⟩
    · subst hm
      simp only [handleFileMessage, hpend, hcontent, hread, Bool.false_eq_true, if_false,
        ← hext, uploadToR2_ok _ _ _ _ hput, updateFileURL_snd, World.log, World.reply]
      simp
    · subst hm
      simp only [handleFileMessage, hpend, hcontent, hread, Bool.false_eq_true, if_false,
        ← hext, uploadToR2_ok _ _ _ _ hput, updateFileURL_snd, World.log, World.reply]
      simp
  rw [key]
  refine ⟨rfl, getObject_putObject_self _ _ _, mapGet_mapDelete_self _ _, ?_⟩
  intro hupd r hr hname
  simp only [hupd, Bool.false_eq_true, if_false, List.mem_map] at hr
  obtain ⟨r0, _, hr0⟩ := hr
  by_cases h0 : r0.file_name = p
  · simp [h0] at hr0
    rw [← hr0]
  · simp [h0] at hr0
    rw [← hr0] at hname
    exact absurd hname h0

/-- C8 (amended) at a concrete input: PNG bytes sent as a file message after `upload docs report` are stored under `report.png`. -/
theorem C8_payload_with_pending_upload_witness :
    getObject (handleFileMessage sampleEnv afterUploadCommand
        (eventOf (Message.FileMessage "m1".toList "photo.bin".toList))
        (Message.FileMessage "m1".toList "photo.bin".toList)).objects
        ("report".toList ++ ".png".toList) = some pngBytes :=
  (C8_payload_with_pending_upload sampleEnv afterUploadCommand
    (eventOf (Message.FileMessage "m1".toList "photo.bin".toList))
    (Message.FileMessage "m1".toList "photo.bin".toList) "report".toList "m1".toList
    ".png".toList pngBytes (by decide)
    (Or.inl ⟨"photo.bin".toList, rfl, by decide⟩) rfl rfl rfl).2.1

/-! ## Text that is not a command -/

theorem mem_map_setContent (db : List FileRecord) (p : Str) (c : Option Str) (r : FileRecord)
    (hr : r ∈ db.map (fun r => if r.file_name == p then { r with file_content := c } else r))
    (hname : r.file_name = p) : r.file_content = c := by
  rw [List.mem_map] at hr
  obtain ⟨r0, _, hr0⟩ := hr
  by_cases h0 : r0.file_name = p
  · simp [h0] at hr0
    rw [← hr0]
  · simp [h0] at hr0
    rw [← hr0] at hname
    exact absurd hname h0

theorem handleTextMessage_default (env : Env) (s : World) (event : Event) (text first : Str)
    (rest : List Str) (h : Fields text = first :: rest)
    (hfirst : first ∉ ["upload".toList, "open".toList, "list".toList, "rename".toList,
      "delete".toList]) :
    handleTextMessage env s event (Message.TextMessage text) =
      caseDefault env s event text (mapGet s.userFile event.UserID) := by
  simp only [List.mem_cons, List.mem_singleton, not_or, List.mem_nil_iff, or_false] at hfirst
  obtain ⟨h1, h2, h3, h4, h5⟩ := hfirst
  simp only [handleTextMessage, h, if_neg h1, if_neg h2, if_neg h3, if_neg h4, if_neg h5]

/-- C10 (as stated, refuted): with `report` pending and the object put failing, the text
`hello world` is not stored, the session entry stays, and no reply is sent. -/
theorem C10_text_not_stored_when_put_fails :
    Fields "hello world".toList = ["hello".toList, "world".toList] ∧
      mapGet afterUploadCommand.userFile "U1".toList = some "report".toList ∧
      handleTextMessage putFailingEnv afterUploadCommand (textEvent "hello world")
          (Message.TextMessage "hello world".toList) =
        { afterUploadCommand with
          trace := afterUploadCommand.trace ++
            [Call.PutObject "report.txt".toList (toBytes "hello world".toList)
              (DetectContentType (toBytes "hello world".toList))] } ∧
      (handleTextMessage putFailingEnv afterUploadCommand (textEvent "hello world")
          (Message.TextMessage "hello world".toList)).objects = [] ∧
      mapGet (handleTextMessage putFailingEnv afterUploadCommand (textEvent "hello world")
          (Message.TextMessage "hello world".toList)).userFile "U1".toList =
        some "report".toList := by
  decide

/-- C10 (amended): for a text whose first token is none of `upload`, `open`, `list`,
`rename`, `delete`: without a pending upload the handler only replies with the usage help;
with pending filename `p` it puts the bytes of the whole raw text under the key `p.txt`,
and, when that put does not fail, issues the update of the rows named `p` with the derived
URL (when it does not fail those rows hold that URL; its failure is ignored), removes the
user's session entry and replies `Upload successful!`; when the put fails it returns
without a reply and changes neither table, bucket nor session map. -/
theorem C10_text_that_is_no_command (env : Env) (s : World) (event : Event)
    (text first : Str) (rest : List Str) (hcmd : Fields text = first :: rest)
    (hfirst : first ∉ ["upload".toList, "open".toList, "list".toList, "rename".toList,
      "delete".toList]) :
    (mapGet s.userFile event.UserID = none →
      handleTextMessage env s event (Message.TextMessage text) =
        { s with trace := s.trace ++ [Call.ReplyMessage event.ReplyToken
          (Reply.text "USAGE:\nupload,open,list,rename".toList)] }) ∧
    (∀ p, mapGet s.userFile event.UserID = some p →
      (env.failPut = false →
        handleTextMessage env s event (Message.TextMessage text) =
          { db := if env.failUpdate then s.db else s.db.map (fun r =>
              if r.file_name == p then
                { r with file_content := some (r2URL bucketID (p ++ ".txt".toList)) }
              else r)
            objects := putObject (p ++ ".txt".toList) (toBytes text) s.objects
            userFile := mapDelete s.userFile event.UserID
            trace := s.trace ++
              [Call.PutObject (p ++ ".txt".toList) (toBytes text)
                  (DetectContentType (toBytes text)),
                Call.UpdateFileURL
                  (NullString.mk (r2URL bucketID (p ++ ".txt".toList)) true) p,
                Call.ReplyMessage event.ReplyToken
                  (Reply.text "Upload successful!".toList)] } ∧
        getObject (handleTextMessage env s event (Message.TextMessage text)).objects
          (p ++ ".txt".toList) = some (toBytes text) ∧
        mapGet (handleTextMessage env s event (Message.TextMessage text)).userFile
          event.UserID = none ∧
        (env.failUpdate = false →
          ∀ r ∈ (handleTextMessage env s event (Message.TextMessage text)).db,
            r.file_name = p →
              r.file_content = some (r2URL bucketID (p ++ ".txt".toList)))) ∧
      (env.failPut = true →
        handleTextMessage env s event (Message.TextMessage text) =
          { s with trace := s.trace ++
            [Call.PutObject (p ++ ".txt".toList) (toBytes text)
              (DetectContentType (toBytes text))] })) := by
  rw [handleTextMessage_default env s event text first rest hcmd hfirst]
  refine ⟨?_, ?_⟩
  · intro hnone
    simp only [hnone, caseDefault, World.reply, World.log]
  · intro p hp
    rw [hp]
    refine ⟨?_, ?_⟩
    · intro hput
      have key : caseDefault env s event text (some p) =
          { db := if env.failUpdate then s.db else s.db.map (fun r =>
              if r.file_name == p then
                { r with file_content := some (r2URL bucketID (p ++ ".txt".toList)) }
              else r)
            objects := putObject (p ++ ".txt".toList) (toBytes text) s.objects
            userFile := mapDelete s.userFile event.UserID
            trace := s.trace ++
              [Call.PutObject (p ++ ".txt".toList) (toBytes text)
                  (DetectContentType (toBytes text)),
                Call.UpdateFileURL
                  (NullString.mk (r2URL bucketID (p ++ ".txt".toList)) true) p,
                Call.ReplyMessage event.ReplyToken
                  (Reply.text "Upload successful!".toList)] } := by
        simp only [caseDefault, uploadToR2_ok _ _ _ _ hput, updateFileURL_snd, World.log,
          World.reply]
        simp
      rw [key]
      refine ⟨rfl, getObject_putObject_self _ _ _, mapGet_mapDelete_self _ _, ?_⟩
      intro hupd r hr hname
      simp only [hupd, Bool.false_eq_true, if_false] at hr
      exact mem_map_setContent _ _ _ r hr hname
    · intro hput
      simp only [caseDefault, uploadToR2_fail _ _ _ _ hput, World.log]

/-- C10 (amended) at a concrete input: the text `hello world` with `report` pending is stored under `report.txt`. -/
theorem C10_text_that_is_no_command_witness :
    getObject (handleTextMessage sampleEnv afterUploadCommand (textEvent "hello world")
        (Message.TextMessage "hello world".toList)).objects
        ("report".toList ++ ".txt".toList) = some (toBytes "hello world".toList) :=
  (((C10_text_that_is_no_command sampleEnv afterUploadCommand (textEvent "hello world")
    "hello world".toList "hello".toList ["world".toList] (by decide) (by decide)).2
    "report".toList (by decide)).1 rfl).2.1

/-! ## The `open` command -/

theorem getFileURLFromR2_error (env : Env) (s : World) (filename : Str) (e : Error)
    (h : (getFileURLFromR2 env s filename).1 = Except.error e) :
    (getFileURLFromR2 env s filename).2 = s.log Call.ListObjectsV2 := by
  unfold getFileURLFromR2 S3.ListObjectsV2 at h ⊢
  cases hl : env.failList with
  | true => simp [hl]
  | false =>
    simp only [hl, Bool.false_eq_true, if_false] at h ⊢
    split at h
    · rename_i hc
      simp only [hc, if_true]
    · simp at h

theorem getFileURL_error (env : Env) (s : World) (filename : Str) (e : Error)
    (h : (getFileURL env s filename).1 = Except.error e) :
    (getFileURL env s filename).2 =
      { s with trace := s.trace ++ [Call.GetFileURL filename, Call.ListObjectsV2] } := by
  have h2 := GetFileURL_snd env s filename
  unfold getFileURL at h ⊢
  cases hres : Queries.GetFileURL env s filename with
  | mk r s1 =>
    rw [hres] at h2 h
    simp only at h2 h
    subst h2
    cases r with
    | error e1 =>
      simp only at h ⊢
      rw [getFileURLFromR2_error env _ filename e h]
      simp [World.log]
    | ok fc =>
      simp only at h ⊢
      split at h
      · simp at h
      · rename_i hv
        simp only [hv, Bool.false_eq_true, if_false]
        rw [getFileURLFromR2_error env _ filename e h]
        simp [World.log]

theorem handleTextMessage_open (env : Env) (s : World) (event : Event) (text : Str)
    (rest : List Str) (h : Fields text = "open".toList :: rest) :
    handleTextMessage env s event (Message.TextMessage text) =
      caseOpen env s event ("open".toList :: rest) := by
  have h1 : ¬ "open".toList = "upload".toList := by decide
  simp only [handleTextMessage, h, if_true, if_neg h1]

/-- C9 (as stated, refuted): (1) the record `notes` resolves to a URL whose last path
component `notes.txt ` ends in a space, so it ends in none of `.txt`, `.jpeg`, `.jpg`,
`.png`, yet `open notes` answers with the downloaded text, not with `Unsupported file
type.`; (2) for a URL whose last path component is `notes.txt`, `open notes` answers
`Error reading file content.` when the download fails, not with a fetched body. -/
theorem C9_open_trims_name_and_may_fail_to_fetch :
    (getFileURL sampleEnv afterSpacedUpload "notes".toList).1 =
        Except.ok "https://pub-5100b97c44f44bd0b69047096448e186.r2.dev/notes.txt ".toList ∧
      Base "https://pub-5100b97c44f44bd0b69047096448e186.r2.dev/notes.txt ".toList =
        "notes.txt ".toList ∧
      HasSuffix "notes.txt ".toList ".txt".toList = false ∧
      HasSuffix "notes.txt ".toList ".jpeg".toList = false ∧
      HasSuffix "notes.txt ".toList ".jpg".toList = false ∧
      HasSuffix "notes.txt ".toList ".png".toList = false ∧
      (handleTextMessage sampleEnv afterSpacedUpload (textEvent "open notes")
          (Message.TextMessage "open notes".toList)).trace.getLast? =
        some (Call.ReplyMessage "tok".toList (Reply.text "hello".toList)) ∧
      (getFileURL offlineEnv afterTextUpload "notes".toList).1 =
        Except.ok "https://pub-5100b97c44f44bd0b69047096448e186.r2.dev/notes.txt".toList ∧
      (handleTextMessage offlineEnv afterTextUpload (textEvent "open notes")
          (Message.TextMessage "open notes".toList)).trace.getLast? =
        some (Call.ReplyMessage "tok".toList
          (Reply.text "Error reading file content.".toList)) :=
  ⟨rfl, rfl, rfl, rfl, rfl, rfl, rfl, rfl, rfl⟩

/-- C9 (amended): for `open filename`: if `getFileURL` fails, the reply is the not-found
text and table, bucket and session map are unchanged. Otherwise the reply is decided by
the last path component of the resolved URL with surrounding white space trimmed: when it
is empty the reply is `Error: Could not determine file name.`; when it ends in `.txt` the
URL is downloaded and the reply is the text body, or `Error reading file content.` when
the download fails; when it ends in `.jpeg`, `.jpg` or `.png` the reply is an image whose
original and preview URLs are both the resolved URL; in every other case the reply is
`Unsupported file type.`. -/
theorem C9_open_dispatch (env : Env) (s : World) (event : Event) (text filename : Str)
    (rest : List Str) (hcmd : Fields text = "open".toList :: filename :: rest) :
    (∀ e, (getFileURL env s filename).1 = Except.error e →
      handleTextMessage env s event (Message.TextMessage text) =
        { s with trace := s.trace ++
          [Call.GetFileURL filename, Call.ListObjectsV2,
            Call.ReplyMessage event.ReplyToken
              (Reply.text "Error: File not found in R2.".toList)] }) ∧
    (∀ fileURL, (getFileURL env s filename).1 = Except.ok fileURL →
      (TrimSpace (Base fileURL) = [] →
        handleTextMessage env s event (Message.TextMessage text) =
          (getFileURL env s filename).2.reply event.ReplyToken
            (Reply.text "Error: Could not determine file name.".toList)) ∧
      (HasSuffix (TrimSpace (Base fileURL)) ".txt".toList = true →
        (∀ body, env.fetch fileURL = some body →
          handleTextMessage env s event (Message.TextMessage text) =
            ((getFileURL env s filename).2.log (Call.HttpGet fileURL)).reply
              event.ReplyToken (Reply.text body)) ∧
        (env.fetch fileURL = none →
          handleTextMessage env s event (Message.TextMessage text) =
            ((getFileURL env s filename).2.log (Call.HttpGet fileURL)).reply
              event.ReplyToken (Reply.text "Error reading file content.".toList))) ∧
      (HasSuffix (TrimSpace (Base fileURL)) ".txt".toList = false →
        (HasSuffix (TrimSpace (Base fileURL)) ".jpeg".toList = true ∨
          HasSuffix (TrimSpace (Base fileURL)) ".jpg".toList = true ∨
          HasSuffix (TrimSpace (Base fileURL)) ".png".toList = true) →
        handleTextMessage env s event (Message.TextMessage text) =
          (getFileURL env s filename).2.reply event.ReplyToken
            (Reply.image fileURL fileURL)) ∧
      (TrimSpace (Base fileURL) ≠ [] →
        HasSuffix (TrimSpace (Base fileURL)) ".txt".toList = false →
        HasSuffix (TrimSpace (Base fileURL)) ".jpeg".toList = false →
        HasSuffix (TrimSpace (Base fileURL)) ".jpg".toList = false →
        HasSuffix (TrimSpace (Base fileURL)) ".png".toList = false →
        handleTextMessage env s event (Message.TextMessage text) =
          (getFileURL env s filename).2.reply event.ReplyToken
            (Reply.text "Unsupported file type.".toList))) := by
  rw [handleTextMessage_open env s event text _ hcmd]
  have hlen : ¬ ("open".toList :: filename :: rest).length < 2 := by simp
  have hsuf : ∀ suf : Str, suf ≠ [] → HasSuffix [] suf = false := by
    intro suf hs
    cases hr : suf.reverse with
    | nil => exact absurd (List.reverse_eq_nil_iff.mp hr) hs
    | cons a as => simp [HasSuffix, hr, List.isPrefixOf]
  unfold caseOpen
  simp only [if_neg hlen, List.getD_cons_succ, List.getD_cons_zero]
  refine ⟨?_, ?_⟩
  · intro e he
    have h2 := getFileURL_error env s filename e he
    cases hres : getFileURL env s filename with
    | mk r s1 =>
      rw [hres] at he h2
      simp only at he h2
      subst he h2
      simp [World.reply, World.log]
  · intro fileURL hok
    cases hres : getFileURL env s filename with
    | mk r s1 =>
      rw [hres] at hok
      simp only at hok
      subst hok
      simp only
      refine ⟨?_, ?_, ?_, ?_⟩
      · intro hempty
        have he2 : (TrimSpace (Base fileURL)).isEmpty = true := by rw [hempty]; rfl
        rw [if_pos he2]
      · intro htxt
        have hne : (TrimSpace (Base fileURL)).isEmpty = false := by
          cases hn : TrimSpace (Base fileURL) with
          | nil => rw [hn, hsuf _ (by decide)] at htxt; cases htxt
          | cons a as => rfl
        have hne2 : ¬ (TrimSpace (Base fileURL)).isEmpty = true := by simp [hne]
        rw [if_neg hne2, if_pos htxt]
        refine ⟨?_, ?_⟩
        · intro body hbody
          simp only [fetchTextFromURL, hbody]
        · intro hnone
          simp only [fetchTextFromURL, hnone]
      · intro htxt himg
        have hne : (TrimSpace (Base fileURL)).isEmpty = false := by
          cases hn : TrimSpace (Base fileURL) with
          | nil =>
            rw [hn, hsuf _ (by decide), hsuf _ (by decide), hsuf _ (by decide)] at himg
            simp at himg
          | cons a as => rfl
        have himg2 : (HasSuffix (TrimSpace (Base fileURL)) ".jpeg".toList ||
            HasSuffix (TrimSpace (Base fileURL)) ".jpg".toList ||
            HasSuffix (TrimSpace (Base fileURL)) ".png".toList) = true := by
          rcases himg with h | h | h <;> simp only [h, Bool.true_or, Bool.or_true]
        have hne2 : ¬ (TrimSpace (Base fileURL)).isEmpty = true := by simp [hne]
        have htxt2 : ¬ HasSuffix (TrimSpace (Base fileURL)) ".txt".toList = true := by
          rw [htxt]; decide
        rw [if_neg hne2, if_neg htxt2, if_pos himg2]
      · intro hnn htxt h1 h2 h3
        have hne : (TrimSpace (Base fileURL)).isEmpty = false := by
          cases hn : TrimSpace (Base fileURL) with
          | nil => exact absurd hn hnn
          | cons a as => rfl
        have hne2 : ¬ (TrimSpace (Base fileURL)).isEmpty = true := by simp [hne]
        have htxt2 : ¬ HasSuffix (TrimSpace (Base fileURL)) ".txt".toList = true := by
          rw [htxt]; decide
        have himg2 : ¬ (HasSuffix (TrimSpace (Base fileURL)) ".jpeg".toList ||
            HasSuffix (TrimSpace (Base fileURL)) ".jpg".toList ||
            HasSuffix (TrimSpace (Base fileURL)) ".png".toList) = true := by
          rw [h1, h2, h3]; decide
        rw [if_neg hne2, if_neg htxt2, if_neg himg2]

/-- C9 (amended) at a concrete input: `open report` after the upload of a PNG file is answered with an image reply. -/
theorem C9_open_dispatch_witness :
    handleTextMessage sampleEnv afterPngFile (textEvent "open report")
        (Message.TextMessage "open report".toList) =
      (getFileURL sampleEnv afterPngFile "report".toList).2.reply "tok".toList
        (Reply.image "https://pub-5100b97c44f44bd0b69047096448e186.r2.dev/report.png".toList
          "https://pub-5100b97c44f44bd0b69047096448e186.r2.dev/report.png".toList) :=
  ((C9_open_dispatch sampleEnv afterPngFile (textEvent "open report")
    "open report".toList "report".toList [] (by decide)).2
    "https://pub-5100b97c44f44bd0b69047096448e186.r2.dev/report.png".toList rfl).2.2.1
    (by decide) (Or.inr (Or.inr (by decide)))

/-! ## Deleting a name that does not exist -/

theorem getFileURL_missing (env : Env) (s : World) (filename : Str) (hf : filename ≠ [])
    (hrow : ∀ r ∈ s.db, r.file_name ≠ filename)
    (hobj : ∀ o ∈ s.objects, HasPrefix o.Key filename = false) :
    ∃ e, (getFileURL env s filename).1 = Except.error e := by
  have hmiss : ∀ u0, (Queries.GetFileURL env s filename).1 ≠
      Except.ok (NullString.mk u0 true) := by
    intro u0 h
    obtain ⟨_, r, hfind, _⟩ := GetFileURL_ok_iff env s filename _ h
    have hname : (r.file_name == filename) = true :=
      List.find?_some (p := fun (r : FileRecord) => r.file_name == filename) hfind
    exact hrow r (List.mem_of_find?_eq_some hfind) (by simpa using hname)
  rw [getFileURL_of_miss env s filename hmiss]
  cases hl : env.failList with
  | true =>
    refine ⟨Error.listingR2, ?_⟩
    simp [getFileURLFromR2, S3.ListObjectsV2, hl]
  | false =>
    refine ⟨Error.notFoundInR2, ?_⟩
    rw [getFileURLFromR2_notFound_iff env _ filename hl hf]
    intro key hkey
    have hk : key ∈ s.objects.map (fun o => o.Key) := List.mem_of_mem_take hkey
    rw [List.mem_map] at hk
    obtain ⟨o, ho, hok⟩ := hk
    rw [← hok]
    exact hobj o ho

/-- C11 (as stated, refuted): on the empty state, where neither a row nor an object exists
for `missingfile`, `delete missingfile` ends with the reply `File deleted successfully!`:
the failed lookup is only printed, the object delete for the key `.` and the metadata
delete for `missingfile` are both issued and both succeed. -/
theorem C11_delete_missing_reports_success :
    handleTextMessage sampleEnv emptyWorld (textEvent "delete missingfile")
        (Message.TextMessage "delete missingfile".toList) =
      { db := []
        objects := []
        userFile := []
        trace :=
          [Call.GetFileURL "missingfile".toList, Call.ListObjectsV2,
            Call.DeleteObject ".".toList, Call.DeleteFile "missingfile".toList,
            Call.ReplyMessage "tok".toList
              (Reply.text "File deleted successfully!".toList)] } := by
  decide

/-- C11 (amended): in a state with no row named `filename` (such as `missingfile`) and no
object key that has it as a prefix, `delete filename` goes on after the failed lookup with
the empty URL. When `initR2` fails nothing is deleted; otherwise the object delete for the
key derived from the empty URL is issued and, unless that fails, the metadata delete for
`filename`. The reply is `File deleted successfully!` when `initR2` and both deletes
succeed and `Error deleting file.` when one of the three fails; the metadata delete is
attempted exactly when `initR2` and the object delete succeed. The table and the session
map are unchanged in every case. -/
theorem C11_delete_missing (env : Env) (s : World) (event : Event) (text filename : Str)
    (rest : List Str) (hcmd : Fields text = "delete".toList :: filename :: rest)
    (hrow : ∀ r ∈ s.db, r.file_name ≠ filename)
    (hobj : ∀ o ∈ s.objects, HasPrefix o.Key filename = false) :
    (env.failInitR2 = true →
      handleTextMessage env s event (Message.TextMessage text) =
        { s with trace := s.trace ++ [Call.GetFileURL filename, Call.ListObjectsV2,
          Call.ReplyMessage event.ReplyToken (Reply.text "Error deleting file.".toList)] }) ∧
    (env.failInitR2 = false → env.failDeleteObject = true →
      handleTextMessage env s event (Message.TextMessage text) =
        { s with trace := s.trace ++ [Call.GetFileURL filename, Call.ListObjectsV2,
          Call.DeleteObject (Base []),
          Call.ReplyMessage event.ReplyToken (Reply.text "Error deleting file.".toList)] }) ∧
    (env.failInitR2 = false → env.failDeleteObject = false → env.failDelete = true →
      handleTextMessage env s event (Message.TextMessage text) =
        { s with
          objects := s.objects.filter (fun o => o.Key != Base [])
          trace := s.trace ++ [Call.GetFileURL filename, Call.ListObjectsV2,
            Call.DeleteObject (Base []), Call.DeleteFile filename,
            Call.ReplyMessage event.ReplyToken (Reply.text "Error deleting file.".toList)] }) ∧
    (env.failInitR2 = false → env.failDeleteObject = false → env.failDelete = false →
      handleTextMessage env s event (Message.TextMessage text) =
        { s with
          objects := s.objects.filter (fun o => o.Key != Base [])
          trace := s.trace ++ [Call.GetFileURL filename, Call.ListObjectsV2,
            Call.DeleteObject (Base []), Call.DeleteFile filename,
            Call.ReplyMessage event.ReplyToken
              (Reply.text "File deleted successfully!".toList)] }) := by
  have hne : filename ≠ [] := Fields_ne_nil text filename (by simp [hcmd])
  obtain ⟨e, he⟩ := getFileURL_missing env s filename hne hrow hobj
  have h2 := getFileURL_error env s filename e he
  have hfilter : s.db.filter (fun r => r.file_name != filename) = s.db := by
    rw [List.filter_eq_self]
    intro r hr
    simpa using hrow r hr
  rw [handleTextMessage_delete env s event text _ hcmd]
  have hlen : ¬ ("delete".toList :: filename :: rest).length < 2 := by simp
  unfold caseDelete
  simp only [if_neg hlen, List.getD_cons_succ, List.getD_cons_zero]
  cases hres : getFileURL env s filename with
  | mk r s1 =>
    rw [hres] at he h2
    simp only at he h2
    subst he h2
    simp only [deleteFile, initR2, S3.DeleteObject, Queries.DeleteFile, World.log,
      World.reply]
    cases h0 : env.failInitR2 with
    | true => simp
    | false =>
      cases h1 : env.failDeleteObject with
      | true => simp
      | false =>
        cases h3 : env.failDelete with
        | true => simp
        | false => simp [hfilter]

/-- C11 (amended) at a concrete input: `delete missingfile` on the empty state. -/
theorem C11_delete_missing_witness :
    handleTextMessage sampleEnv emptyWorld (textEvent "delete missingfile")
        (Message.TextMessage "delete missingfile".toList) =
      { emptyWorld with
        objects := emptyWorld.objects.filter (fun o => o.Key != Base [])
        trace := emptyWorld.trace ++ [Call.GetFileURL "missingfile".toList,
          Call.ListObjectsV2, Call.DeleteObject (Base []),
          Call.DeleteFile "missingfile".toList,
          Call.ReplyMessage (textEvent "delete missingfile").ReplyToken
            (Reply.text "File deleted successfully!".toList)] } :=
  (C11_delete_missing sampleEnv emptyWorld (textEvent "delete missingfile")
    "delete missingfile".toList "missingfile".toList [] (by decide)
    (fun r hr => by cases hr) (fun o ho => by cases ho)).2.2.2 rfl rfl rfl

/-! ## The `list` command -/

theorem eraseDups_loop_spec (as bs : List (Option Str)) (hbs : bs.Nodup) :
    (List.eraseDups.loop as bs).Nodup ∧
      ∀ x, x ∈ List.eraseDups.loop as bs ↔ x ∈ as ∨ x ∈ bs := by
  induction as generalizing bs with
  | nil =>
    simp only [List.eraseDups.loop]
    exact ⟨List.nodup_reverse.mpr hbs, fun x => by simp⟩
  | cons a rest ih =>
    unfold List.eraseDups.loop
    cases hel : bs.elem a with
    | true =>
      simp only
      have hmem : a ∈ bs := by simpa using hel
      obtain ⟨h1, h2⟩ := ih bs hbs
      refine ⟨h1, fun x => ?_⟩
      rw [h2 x, List.mem_cons]
      constructor
      · rintro (h | h)
        · exact Or.inl (Or.inr h)
        · exact Or.inr h
      · rintro ((h | h) | h)
        · exact Or.inr (h ▸ hmem)
        · exact Or.inl h
        · exact Or.inr h
    | false =>
      simp only
      have hmem : a ∉ bs := by simpa using hel
      obtain ⟨h1, h2⟩ := ih (a :: bs) (List.nodup_cons.mpr ⟨hmem, hbs⟩)
      refine ⟨h1, fun x => ?_⟩
      rw [h2 x, List.mem_cons, List.mem_cons]
      constructor
      · rintro (h | h | h)
        · exact Or.inl (Or.inr h)
        · exact Or.inl (Or.inl h)
        · exact Or.inr h
      · rintro ((h | h) | h)
        · exact Or.inr (Or.inl h)
        · exact Or.inl h
        · exact Or.inr (Or.inr h)

theorem validTexts_eq_filterMap (l : List (Option Str)) :
    ((l.map NullString.scan).filter (fun cat => cat.Valid)).map (fun cat => cat.Text) =
      l.filterMap id := by
  induction l with
  | nil => rfl
  | cons a rest ih =>
    cases a with
    | none => simpa [NullString.scan] using ih
    | some t => simpa [NullString.scan] using ih

theorem handleTextMessage_list (env : Env) (s : World) (event : Event) (text : Str)
    (rest : List Str) (h : Fields text = "list".toList :: rest) :
    handleTextMessage env s event (Message.TextMessage text) =
      caseList env s event ("list".toList :: rest) := by
  have h1 : ¬ "list".toList = "upload".toList := by decide
  have h2 : ¬ "list".toList = "open".toList := by decide
  simp only [handleTextMessage, h, if_true, if_neg h1, if_neg h2]

theorem listFilesFromDB_categories (env : Env) (s : World)
    (hq : env.failListCategories = false) :
    listFilesFromDB env s [] =
      (Except.ok ((s.db.map (fun r => r.theme)).eraseDups.filterMap id),
        s.log Call.ListAllCategories) := by
  simp only [listFilesFromDB, Queries.ListAllCategories, hq, World.log, List.isEmpty,
    Bool.false_eq_true, if_false, if_true, validTexts_eq_filterMap]

theorem listFilesFromDB_files (env : Env) (s : World) (category : Str) (hc : category ≠ [])
    (hq : env.failListFiles = false) :
    listFilesFromDB env s category =
      (Except.ok ((s.db.filter (fun r => r.theme == some category)).map
          (fun r => r.file_name)),
        s.log (Call.ListFilesInCategory (NullString.mk category true))) := by
  have he : category.isEmpty = false := by
    cases category with
    | nil => exact absurd rfl hc
    | cons a as => rfl
  simp [listFilesFromDB, Queries.ListFilesInCategory, hq, World.log, he]

theorem joinLines_eq_intercalate : ∀ l : List Str,
    joinLines l = List.intercalate "\n".toList l
  | [] => rfl
  | [a] => by simp [joinLines, List.intercalate]
  | a :: b :: rest => by
    have ih := joinLines_eq_intercalate (b :: rest)
    simp only [joinLines, List.intercalate, List.intersperse, List.flatten] at ih ⊢
    rw [ih]
    simp

/-- C12 (as stated, refuted): when the query fails, `list` and `list docs` on a table with
the themes `docs`, `photos` and `default` return no list and send no reply at all: the
error is only logged. -/
theorem C12_list_sends_nothing_when_query_fails :
    handleTextMessage listFailingEnv threeThemesWorld (textEvent "list")
        (Message.TextMessage "list".toList) =
      { threeThemesWorld with trace := [Call.ListAllCategories] } ∧
    handleTextMessage listFailingEnv threeThemesWorld (textEvent "list docs")
        (Message.TextMessage "list docs".toList) =
      { threeThemesWorld with
        trace := [Call.ListFilesInCategory ⟨"docs".toList, true⟩] } := by
  decide

/-- C12 (amended): for every table, when the query does not fail: `list` without a category
obtains a duplicate-free list holding exactly the themes present in the table (NULL themes
apart), `list category` obtains exactly the file names of the rows whose theme equals
`category`, and in either case the reply is `No files found.` for an empty list and
otherwise `Files:` followed by the entries, one per line; when the query fails the handler
sends no reply. The table, the bucket and the session map are unchanged in every case. -/
theorem C12_list_categories_and_files (env : Env) (s : World) (event : Event) (text : Str)
    (rest : List Str) (hcmd : Fields text = "list".toList :: rest) :
    (rest = [] →
      (env.failListCategories = false →
        ∃ themes,
          (listFilesFromDB env s []).1 = Except.ok themes ∧ themes.Nodup ∧
          (∀ t, t ∈ themes ↔ ∃ r ∈ s.db, r.theme = some t) ∧
          handleTextMessage env s event (Message.TextMessage text) =
            { s with trace := s.trace ++ [Call.ListAllCategories,
              Call.ReplyMessage event.ReplyToken (Reply.text
                (if themes.length = 0 then "No files found.".toList
                  else "Files:\n".toList ++ List.intercalate "\n".toList themes))] }) ∧
      (env.failListCategories = true →
        handleTextMessage env s event (Message.TextMessage text) =
          { s with trace := s.trace ++ [Call.ListAllCategories] })) ∧
    (∀ category more, rest = category :: more →
      (env.failListFiles = false →
        (listFilesFromDB env s category).1 =
            Except.ok ((s.db.filter (fun r => r.theme == some category)).map
              (fun r => r.file_name)) ∧
          handleTextMessage env s event (Message.TextMessage text) =
            { s with trace := s.trace ++
              [Call.ListFilesInCategory (NullString.mk category true),
                Call.ReplyMessage event.ReplyToken (Reply.text
                  (if ((s.db.filter (fun r => r.theme == some category)).map
                      (fun r => r.file_name)).length = 0 then "No files found.".toList
                    else "Files:\n".toList ++ List.intercalate "\n".toList
                      ((s.db.filter (fun r => r.theme == some category)).map
                        (fun r => r.file_name))))] }) ∧
      (env.failListFiles = true →
        handleTextMessage env s event (Message.TextMessage text) =
          { s with trace := s.trace ++
            [Call.ListFilesInCategory (NullString.mk category true)] })) := by
  rw [handleTextMessage_list env s event text _ hcmd]
  refine ⟨?_, ?_⟩
  · intro hrest
    subst hrest
    have hlen : ["list".toList].length < 2 := by decide
    refine ⟨?_, ?_⟩
    · intro hq
      obtain ⟨hnd, hmem⟩ :=
        eraseDups_loop_spec (s.db.map (fun r => r.theme)) [] List.nodup_nil
      refine ⟨(s.db.map (fun r => r.theme)).eraseDups.filterMap id, ?_, ?_, ?_, ?_⟩
      · rw [listFilesFromDB_categories env s hq]
      · refine List.Nodup.filterMap ?_ hnd
        intro a a2 b hb hb2
        simp only [id, Option.mem_def] at hb hb2
        rw [hb, hb2]
      · intro t
        rw [List.mem_filterMap]
        constructor
        · rintro ⟨a, ha, hat⟩
          simp only [id] at hat
          subst hat
          have h := (hmem (some t)).mp ha
          simp only [List.mem_map, List.not_mem_nil, or_false] at h
          exact h
        · rintro ⟨r, hr, hrt⟩
          refine ⟨some t, (hmem (some t)).mpr (Or.inl ?_), rfl⟩
          exact List.mem_map.mpr ⟨r, hr, hrt⟩
      · unfold caseList
        simp only [if_pos hlen, listFilesFromDB_categories env s hq, World.reply, World.log,
          joinLines_eq_intercalate]
        split <;> simp
    · intro hq
      unfold caseList
      simp [hlen, listFilesFromDB, Queries.ListAllCategories, hq, World.log]
  · intro category more hrest
    subst hrest
    have hc : category ≠ [] := Fields_ne_nil text category (by simp [hcmd])
    have he : category.isEmpty = false := by
      cases category with
      | nil => exact absurd rfl hc
      | cons a as => rfl
    have hlen : ¬ ("list".toList :: category :: more).length < 2 := by simp
    refine ⟨?_, ?_⟩
    · intro hq
      refine ⟨by rw [listFilesFromDB_files env s category hc hq], ?_⟩
      unfold caseList
      simp only [if_neg hlen, List.getD_cons_succ, List.getD_cons_zero,
        listFilesFromDB_files env s category hc hq, World.reply, World.log,
        joinLines_eq_intercalate]
      split <;> simp
    · intro hq
      unfold caseList
      simp only [if_neg hlen, List.getD_cons_succ, List.getD_cons_zero]
      simp [listFilesFromDB, Queries.ListFilesInCategory, hq, World.log, he]

/-- C12 (amended) at a concrete input: `list` on a table with the themes `docs`, `photos`,
`default` (and `docs` twice) obtains exactly those three strings and replies with them,
one per line. -/
theorem C12_list_categories_and_files_witness :
    (listFilesFromDB sampleEnv threeThemesWorld []).1 =
        Except.ok ["docs".toList, "photos".toList, "default".toList] ∧
      handleTextMessage sampleEnv threeThemesWorld (textEvent "list")
          (Message.TextMessage "list".toList) =
        { threeThemesWorld with trace := [Call.ListAllCategories,
          Call.ReplyMessage "tok".toList
            (Reply.text "Files:\ndocs\nphotos\ndefault".toList)] } ∧
      ∃ themes,
        (listFilesFromDB sampleEnv threeThemesWorld []).1 = Except.ok themes ∧ themes.Nodup ∧
        (∀ t, t ∈ themes ↔ ∃ r ∈ threeThemesWorld.db, r.theme = some t) ∧
        handleTextMessage sampleEnv threeThemesWorld (textEvent "list")
            (Message.TextMessage "list".toList) =
          { threeThemesWorld with trace := threeThemesWorld.trace ++ [Call.ListAllCategories,
            Call.ReplyMessage (textEvent "list").ReplyToken (Reply.text
              (if themes.length = 0 then "No files found.".toList
                else "Files:\n".toList ++ List.intercalate "\n".toList themes))] } :=
  ⟨rfl, by decide, ((C12_list_categories_and_files sampleEnv threeThemesWorld
    (textEvent "list") "list".toList [] (by decide)).1 rfl).1 rfl⟩

end LineSQLC
